import Mathlib

/-!
Shallow embedding of the `nft` EOSIO contract (src/src/nft.cpp, header in
src/unnamed/part_000).

Modelling conventions:
* An EOSIO account name (`eosio::name`) is a 64-bit value; we model it as a
  `Nat` (`Name`).  The empty name `name("")` is `0` (the null principal).
* `uint64_t` quantities (`supply`, `max_supply`, identifiers) are `Nat`s and
  every arithmetic operation the C++ performs on them is taken modulo
  `2 ^ 64` exactly where the C++ wraps (`s.supply += amount` and the mixed
  `uint64 + int64` sum inside mint's supply-cap check, where the positive
  `int64` is converted to `uint64`).
* `int64_t` balances and amounts are `Int`s with exact arithmetic: every
  signed addition/subtraction the contract performs within defined C++
  behaviour is exact, and signed overflow is undefined behaviour in C++, so
  no wrapping is modelled for them.
* `eosio::check(cond, msg)` aborts the whole transaction; we model each
  action as an `Except Err` computation that returns the updated state on
  success, the abort (with the spec's error kind for that message) otherwise.
  Host-level all-or-nothing application of a transaction corresponds to the
  `Except` result carrying no partial state on `error`.
* `eosio::multi_index` tables are association lists in declaration order:
  `emplace` appends, `modify` rewrites the matching row in place, `erase`
  removes it, `find`/`get`/`require_find` are `List.find?` on the primary
  key.  `balances` is scoped per owner, so its rows are `(owner, row)` pairs.
* `require_auth(a)` succeeds iff `a` is among the authorizations the action
  was invoked with (`Env.auths`); `has_auth` is membership in the same list;
  `is_account` is the host predicate `Env.is_account`; `_self` is
  `Env.self`.  An inline action sent with `permission_level{author, active}`
  executes with `auths = [author]`.
* The three log actions (`collog`, `assetlog`, `transferlog`) only
  `require_auth(_self)` and are always sent with `self_perm`, so they never
  fail and have no state effect; we record them as emitted `Event`s.
* `string` byte length is modelled by `String.length`.
-/

set_option linter.unusedVariables false
set_option synthInstance.maxSize 512

/-- 2 ^ 64, the modulus of `uint64_t` arithmetic. -/
def U64 : Nat := 2 ^ 64

/-- `uint64_t` value reinterpreted as `int64_t` (two's complement), as in the
implicit conversion of `createasset`'s `uint64_t supply` argument to the
`int64_t amount` parameter of `mint`. -/
def toInt64 (n : Nat) : Int :=
  if n % U64 < 2 ^ 63 then ((n % U64 : Nat) : Int) else ((n % U64 : Nat) : Int) - (U64 : Int)

/-- An account name (`eosio::name` is a 64-bit value); `0` is `name("")`,
the null principal. -/
abbrev Name := Nat

/-- The spec's failure kinds; each `eosio::check` / lookup-abort site in the
source is mapped to the kind the spec assigns to its message:
`"royalty ..."`, `"data has more than 65535 bytes"`, `"memo has more than 256
bytes"`, `"must issue/retire/transfer positive amount"`, `"max-supply must be
positive"` ↦ `invalidInput`; `require_auth` failure ↦ `unauthorized`;
`"author/to account does not exist"` ↦ `unknownPrincipal`; `"unable to find
collection"` ↦ `unknownCollection` (in `createasset`) / `collectionNotFound`
(in `mint`/`burn`); `"unable to find asset"` ↦ `assetNotFound`; `"amount
exceeds available supply"` ↦ `supplyExceeded`; `"insufficient amount"` ↦
`insufficientSupply`; `"no balance object found"` and `"overdrawn balance"` ↦
`insufficientBalance`; `"cannot transfer to self"` ↦ `selfTransfer`. -/
inductive Err where
  | invalidInput
  | unauthorized
  | unknownPrincipal
  | unknownCollection
  | collectionNotFound
  | assetNotFound
  | supplyExceeded
  | insufficientSupply
  | insufficientBalance
  | selfTransfer
deriving DecidableEq, Repr

/-- The emitted audit records: the data of the `collog`, `assetlog` and
`transferlog` actions the contract sends to itself with `self_perm`. -/
inductive Event where
  | collog (collection_id : Nat) (author : Name) (royalty : Nat) (data : String)
  | assetlog (asset_id : Nat) (collection_id : Nat) (max_supply : Nat) (data : String)
  | transferlog (frm : Name) (dst : Name) (asset_id : Nat) (amount : Int)
      (from_balance : Int) (to_balance : Int) (memo : String)
deriving DecidableEq, Repr

/-- Row of the `collections` table (`nft_collection`). -/
structure NftCollection where
  collection_id : Nat
  author : Name
  royalty : Nat
  data : String
deriving DecidableEq, Repr

/-- Row of the `assets` table (`nft_asset`). -/
structure NftAsset where
  asset_id : Nat
  collection_id : Nat
  supply : Nat
  max_supply : Nat
  data : String
deriving DecidableEq, Repr

/-- Row of the per-owner `balances` table (`nft_balance`). -/
structure NftBalance where
  asset_id : Nat
  balance : Int
deriving DecidableEq, Repr

/-- The contract's persistent state: the three multi_index tables; each
`balances` row is tagged with the owner that scopes it. -/
structure ChainState where
  collections : List NftCollection
  assets : List NftAsset
  balances : List (Name × NftBalance)
deriving DecidableEq, Repr

/-- Host-environment context of one action execution. -/
structure Env where
  is_account : Name → Bool
  auths : List Name
  self : Name

/-- Primary-key match for a `balances` row scoped by `owner`. -/
def balKey (owner : Name) (aid : Nat) (p : Name × NftBalance) : Bool :=
  p.1 == owner && p.2.asset_id == aid

/-- `balances(get_self(), owner.value).find(asset_id)`. -/
def findBal (bs : List (Name × NftBalance)) (owner : Name) (aid : Nat) :
    Option (Name × NftBalance) :=
  bs.find? (balKey owner aid)

/-- `modify` on the unique matching balance row (applied pointwise, as a
multi_index `modify` updates the addressed row). -/
def mapBal (bs : List (Name × NftBalance)) (owner : Name) (aid : Nat) (f : Int → Int) :
    List (Name × NftBalance) :=
  bs.map (fun p => if balKey owner aid p then (p.1, ⟨p.2.asset_id, f p.2.balance⟩) else p)

/-- `erase` of the matching balance row. -/
def eraseBal (bs : List (Name × NftBalance)) (owner : Name) (aid : Nat) :
    List (Name × NftBalance) :=
  bs.filter (fun p => !(balKey owner aid p))

/-- Primary-key match for an `assets` row. -/
def assetKey (aid : Nat) (a : NftAsset) : Bool :=
  a.asset_id == aid

/-- `assets.find(asset_id)` / `require_find` / `get`. -/
def findAsset (st : ChainState) (aid : Nat) : Option NftAsset :=
  st.assets.find? (assetKey aid)

/-- `modify` of the supply field of the matching asset row. -/
def mapSupply (as' : List NftAsset) (aid : Nat) (f : Nat → Nat) : List NftAsset :=
  as'.map (fun a => if assetKey aid a then { a with supply := f a.supply } else a)

/-- Primary-key match for a `collections` row. -/
def colKey (cid : Nat) (c : NftCollection) : Bool :=
  c.collection_id == cid

/-- `collections.find(collection_id)` / `require_find`. -/
def findCol (st : ChainState) (cid : Nat) : Option NftCollection :=
  st.collections.find? (colKey cid)

/-- `multi_index::available_primary_key()`: `0` on an empty table, otherwise
the maximum stored primary key plus one. -/
def available_primary_key (ids : List Nat) : Nat :=
  if ids.isEmpty then 0 else ids.foldl max 0 + 1

/-- The id-allocation step shared by `createcol` and `createasset`:
`available_primary_key()` bumped to `1` when the table was empty (the source's
`if (id == 0) id = 1;`). -/
def allocId (ids : List Nat) : Nat :=
  if available_primary_key ids = 0 then 1 else available_primary_key ids

/-- The owner's effective balance in an asset: the stored quantity, `0` when
no row exists. -/
def effBal (st : ChainState) (owner : Name) (aid : Nat) : Int :=
  ((findBal st.balances owner aid).map (fun p => p.2.balance)).getD 0

/-- `nft::add_balance(owner, asset_id, amount, ram_payer)`: create the row
with `balance = amount` if absent, else `balance += amount`; returns the
resulting balance of the addressed row (`to->balance`).  `ram_payer` only
selects who is billed for storage, which is outside the ledger state. -/
def add_balance (st : ChainState) (owner : Name) (asset_id : Nat) (amount : Int)
    (ram_payer : Name) : ChainState × Int :=
  match findBal st.balances owner asset_id with
  | none =>
      ({ st with balances := st.balances ++ [(owner, ⟨asset_id, amount⟩)] }, amount)
  | some p =>
      ({ st with balances := mapBal st.balances owner asset_id (fun b => b + amount) },
        p.2.balance + amount)

/-- `nft::sub_balance(owner, asset_id, amount)`: aborts when no row exists
("no balance object found") or the stored balance is below `amount`
("overdrawn balance"); erases the row when the balance equals `amount`
(returning 0), else decrements it (returning the post-modify balance, since
the C++ returns the cached row's `balance` after `modify`). -/
def sub_balance (st : ChainState) (owner : Name) (asset_id : Nat) (amount : Int) :
    Except Err (ChainState × Int) :=
  match findBal st.balances owner asset_id with
  | none => .error .insufficientBalance
  | some p =>
      if p.2.balance < amount then .error .insufficientBalance
      else if p.2.balance = amount then
        .ok ({ st with balances := eraseBal st.balances owner asset_id }, 0)
      else
        .ok ({ st with balances := mapBal st.balances owner asset_id (fun b => b - amount) },
          p.2.balance - amount)

/-- `nft::createcol(author, royalty, data)`.  The source's
`check(royalty >= 0, ...)` is identically true for `uint16_t` and is not a
branch.  Allocates `available_primary_key()` bumped to 1 when 0, emplaces the
row, and emits `collog`. -/
def createcol (env : Env) (st : ChainState) (author : Name) (royalty : Nat)
    (data : String) : Except Err (ChainState × Event) :=
  if env.self ∉ env.auths then .error .unauthorized
  else if ¬ royalty ≤ 1000 then .error .invalidInput
  else if ¬ data.length ≤ 65535 then .error .invalidInput
  else if ¬ env.is_account author then .error .unknownPrincipal
  else
    .ok ({ st with collections :=
            st.collections ++
              [⟨allocId (st.collections.map (fun c => c.collection_id)), author, royalty, data⟩] },
      .collog (allocId (st.collections.map (fun c => c.collection_id))) author royalty data)

/-- `nft::mint(to, asset_id, amount, memo)`, the action body only (the
source's `to` parameter is named `dst` here, `to` being reserved): performs
the checks in source order, increments the asset's supply with `uint64`
wrapping, credits `to` via `add_balance`, and emits the `transferlog` with
`from = name("")`, `to = col_it->author`, the amount, `0` and the balance
returned by `add_balance`.  Returns, besides the new state and that event,
the parameters of the inline `transfer` action the body schedules when
`to != col_it->author` (sent with `permission_level{author, "active"}`). -/
def mint (env : Env) (st : ChainState) (dst : Name) (asset_id : Nat) (amount : Int)
    (memo : String) :
    Except Err (ChainState × Event × Option (Name × Name × Nat × Int × String)) :=
  if ¬ memo.length ≤ 256 then .error .invalidInput
  else
    match findAsset st asset_id with
    | none => .error .assetNotFound
    | some ast =>
      match findCol st ast.collection_id with
      | none => .error .collectionNotFound
      | some col =>
        if col.author ∉ env.auths then .error .unauthorized
        else if ¬ 0 < amount then .error .invalidInput
        else if ¬ (ast.supply + amount.toNat) % U64 ≤ ast.max_supply then
          .error .supplyExceeded
        else
          .ok ((add_balance { st with
              assets := mapSupply st.assets asset_id (fun s => (s + amount.toNat) % U64) }
              dst asset_id amount col.author).1,
            Event.transferlog 0 col.author asset_id amount 0
              (add_balance { st with
                assets := mapSupply st.assets asset_id (fun s => (s + amount.toNat) % U64) }
                dst asset_id amount col.author).2 memo,
            if dst ≠ col.author then some (col.author, dst, asset_id, amount, memo)
            else none)

/-- `nft::transfer(from, to, asset_id, amount, memo)` (parameters renamed
`frm`/`dst`, both being reserved words here): checks in source order
(`require_recipient` is a pure notification and has no state effect);
the ram payer of a newly created `to` row is `to` when `has_auth(to)`, else
`from`; emits the `transferlog` with both resulting balances. -/
def transfer (env : Env) (st : ChainState) (frm : Name) (dst : Name) (asset_id : Nat)
    (amount : Int) (memo : String) : Except Err (ChainState × Event) :=
  if frm = dst then .error .selfTransfer
  else if frm ∉ env.auths then .error .unauthorized
  else if ¬ env.is_account dst then .error .unknownPrincipal
  else
    match findAsset st asset_id with
    | none => .error .assetNotFound
    | some _ast =>
      if ¬ 0 < amount then .error .invalidInput
      else if ¬ memo.length ≤ 256 then .error .invalidInput
      else
        match sub_balance st frm asset_id amount with
        | .error e => .error e
        | .ok (st1, from_balance) =>
          .ok ((add_balance st1 dst asset_id amount
              (if dst ∈ env.auths then dst else frm)).1,
            .transferlog frm dst asset_id amount from_balance
              (add_balance st1 dst asset_id amount
                (if dst ∈ env.auths then dst else frm)).2 memo)

/-- A successful `mint` transaction as the host executes it: the `mint`
action body followed by the inline `transfer` action it scheduled (if any),
which runs with the author's authorization; an inline-action failure aborts
the whole transaction.  Collects the `transferlog` events in order. -/
def mintTx (env : Env) (st : ChainState) (dst : Name) (asset_id : Nat) (amount : Int)
    (memo : String) : Except Err (ChainState × List Event) :=
  match mint env st dst asset_id amount memo with
  | .error e => .error e
  | .ok (st1, ev, none) => .ok (st1, [ev])
  | .ok (st1, ev, some (f, t, aid, amt, m)) =>
    match transfer { env with auths := [f] } st1 f t aid amt m with
    | .error e => .error e
    | .ok (st2, ev2) => .ok (st2, [ev, ev2])

/-- `nft::burn(asset_id, amount, memo)`: checks in source order; the
`uint64 supply >= int64 amount` comparison converts the (already checked
positive) amount to `uint64`, so it is exact; `s.supply -= amount` cannot
underflow after that check; debits the collection author via `sub_balance`
and emits the `transferlog` with `to = name("")`. -/
def burn (env : Env) (st : ChainState) (asset_id : Nat) (amount : Int) (memo : String) :
    Except Err (ChainState × Event) :=
  if ¬ memo.length ≤ 256 then .error .invalidInput
  else if ¬ 0 < amount then .error .invalidInput
  else
    match findAsset st asset_id with
    | none => .error .assetNotFound
    | some ast =>
      if ¬ amount.toNat ≤ ast.supply then .error .insufficientSupply
      else
        match findCol st ast.collection_id with
        | none => .error .collectionNotFound
        | some col =>
          if col.author ∉ env.auths then .error .unauthorized
          else
            match sub_balance { st with
                assets := mapSupply st.assets asset_id (fun s => s - amount.toNat) }
              col.author asset_id amount with
            | .error e => .error e
            | .ok (st2, from_balance) =>
              .ok (st2, .transferlog col.author 0 asset_id amount from_balance 0 memo)

/-- `nft::createasset(collection_id, supply, max_supply, data)`: checks in
source order, allocates the asset id, emplaces the row with `supply = 0`,
emits `assetlog`, and when the requested `supply` is nonzero calls `mint`
(a plain C++ call inside the same action, hence the same authorization
context) for the collection author with `supply` converted from `uint64_t`
to the `int64_t` amount parameter. -/
def createasset (env : Env) (st : ChainState) (collection_id : Nat) (supply : Nat)
    (max_supply : Nat) (data : String) : Except Err (ChainState × List Event) :=
  if ¬ 0 < max_supply then .error .invalidInput
  else if ¬ data.length ≤ 65535 then .error .invalidInput
  else
    match findCol st collection_id with
    | none => .error .unknownCollection
    | some col =>
      if col.author ∉ env.auths then .error .unauthorized
      else
        if 0 < supply then
          match mintTx env { st with assets := st.assets ++
                [⟨allocId (st.assets.map (fun a => a.asset_id)), collection_id, 0, max_supply, data⟩] }
              col.author (allocId (st.assets.map (fun a => a.asset_id)))
              (toInt64 supply) "create and mint" with
          | .error e => .error e
          | .ok (st2, evs) =>
            .ok (st2, Event.assetlog (allocId (st.assets.map (fun a => a.asset_id)))
              collection_id max_supply data :: evs)
        else
          .ok ({ st with assets := st.assets ++
              [⟨allocId (st.assets.map (fun a => a.asset_id)), collection_id, 0, max_supply, data⟩] },
            [Event.assetlog (allocId (st.assets.map (fun a => a.asset_id)))
              collection_id max_supply data])

/-! ## Derived notions: table well-formedness and per-asset balance sums -/

/-- The `(owner, asset_id)` primary key of a balances row. -/
def keyOf (p : Name × NftBalance) : Name × Nat := (p.1, p.2.asset_id)

/-- multi_index primary keys are unique: no two balance rows share an
`(owner, asset_id)` key. -/
def uniqKeys (bs : List (Name × NftBalance)) : Prop :=
  bs.Pairwise (fun p q => keyOf p ≠ keyOf q)

/-- Sum of the stored quantities of one asset across all owners. -/
def sumBal (bs : List (Name × NftBalance)) (aid : Nat) : Int :=
  (bs.map (fun p => if p.2.asset_id == aid then p.2.balance else 0)).sum

/-- Every stored balance is strictly positive (spec §3 Balance invariant). -/
def allPos (bs : List (Name × NftBalance)) : Prop :=
  ∀ p ∈ bs, 0 < p.2.balance

/-- Every balance row references an existing asset. -/
def balRefs (st : ChainState) : Prop :=
  ∀ p ∈ st.balances, (findAsset st p.2.asset_id).isSome

/-- The spec's sum invariant, literally: per-asset balance sums equal the
asset's supply. -/
def SumEq (st : ChainState) : Prop :=
  ∀ a ∈ st.assets, sumBal st.balances a.asset_id = (a.supply : Int)

/-- The sum invariant modulo `2 ^ 64`: per-asset balance sums are congruent
to the asset's (wrapping `uint64`) supply. -/
def SumInv (st : ChainState) : Prop :=
  ∀ a ∈ st.assets, sumBal st.balances a.asset_id % (U64 : Int) = (a.supply : Int) % (U64 : Int)

theorem balKey_eq_true {o : Name} {a : Nat} {p : Name × NftBalance} :
    balKey o a p = true ↔ keyOf p = (o, a) := by
  simp [balKey, keyOf, Prod.ext_iff]

theorem find?_decomp {α : Type _} {q : α → Bool} :
    ∀ {l : List α} {x : α}, l.find? q = some x →
      ∃ l1 l2, l = l1 ++ x :: l2 ∧ (∀ y ∈ l1, q y = false) ∧ q x = true := by
  intro l
  induction l with
  | nil => intro x h; simp at h
  | cons hd tl ih =>
    intro x h
    by_cases hq : q hd
    · rw [List.find?_cons_of_pos _ hq] at h
      cases h
      exact ⟨[], tl, rfl, by simp, hq⟩
    · rw [List.find?_cons_of_neg _ hq] at h
      obtain ⟨l1, l2, heq, h1, h2⟩ := ih h
      refine ⟨hd :: l1, l2, by rw [heq]; rfl, ?_, h2⟩
      intro y hy
      rcases List.mem_cons.mp hy with h' | h'
      · subst h'; simpa using hq
      · exact h1 y h'

/-! ## Lemmas about the balance table primitives -/

theorem uniq_decomp {bs : List (Name × NftBalance)} {o : Name} {a : Nat}
    {p : Name × NftBalance} (hu : uniqKeys bs) (h : findBal bs o a = some p) :
    ∃ l1 l2, bs = l1 ++ p :: l2 ∧ (∀ y ∈ l1, balKey o a y = false) ∧
      (∀ y ∈ l2, balKey o a y = false) ∧ balKey o a p = true := by
  obtain ⟨l1, l2, heq, h1, hp⟩ := find?_decomp h
  refine ⟨l1, l2, heq, h1, ?_, hp⟩
  intro y hy
  have hpair : (p :: l2).Pairwise (fun p q => keyOf p ≠ keyOf q) := by
    have := heq ▸ hu
    exact (List.pairwise_append.mp this).2.1
  have hne : keyOf p ≠ keyOf y := (List.pairwise_cons.mp hpair).1 y hy
  by_cases hb : balKey o a y = true
  · exact absurd ((balKey_eq_true.mp hp).trans (balKey_eq_true.mp hb).symm) hne
  · simpa using hb

theorem mapBal_key_pres (o a o' : Name) (a' : Nat) (p : Name × NftBalance) (f : Int → Int) :
    balKey o' a' (if balKey o a p then (p.1, ⟨p.2.asset_id, f p.2.balance⟩) else p) =
      balKey o' a' p := by
  by_cases h : balKey o a p = true
  · rw [if_pos h]; simp [balKey]
  · rw [if_neg h]

theorem findBal_mapBal_self (bs : List (Name × NftBalance)) (o : Name) (a : Nat)
    (f : Int → Int) :
    findBal (mapBal bs o a f) o a =
      (findBal bs o a).map (fun p => (p.1, ⟨p.2.asset_id, f p.2.balance⟩)) := by
  unfold findBal mapBal
  rw [List.find?_map]
  have hcomp : (balKey o a) ∘
      (fun p => if balKey o a p then ((p.1, ⟨p.2.asset_id, f p.2.balance⟩) : Name × NftBalance) else p) =
      balKey o a := by
    funext p
    exact mapBal_key_pres o a o a p f
  rw [hcomp]
  cases hf : bs.find? (balKey o a) with
  | none => rfl
  | some p => simp [List.find?_some hf]

theorem findBal_mapBal_other {o' o : Name} {a' a : Nat}
    (bs : List (Name × NftBalance)) (f : Int → Int) (h : ¬(o' = o ∧ a' = a)) :
    findBal (mapBal bs o a f) o' a' = findBal bs o' a' := by
  unfold findBal mapBal
  rw [List.find?_map]
  have hcomp : (balKey o' a') ∘
      (fun p => if balKey o a p then ((p.1, ⟨p.2.asset_id, f p.2.balance⟩) : Name × NftBalance) else p) =
      balKey o' a' := by
    funext p
    exact mapBal_key_pres o a o' a' p f
  rw [hcomp]
  cases hf : bs.find? (balKey o' a') with
  | none => rfl
  | some p =>
    have hp := List.find?_some hf
    have hne : balKey o a p = false := by
      by_cases hb : balKey o a p = true
      · have h3 : ((o', a') : Name × Nat) = (o, a) :=
          (balKey_eq_true.mp hp).symm.trans (balKey_eq_true.mp hb)
        exact absurd ⟨congrArg Prod.fst h3, congrArg Prod.snd h3⟩ h
      · simpa using hb
    simp [hne]

theorem findBal_eraseBal_self (bs : List (Name × NftBalance)) (o : Name) (a : Nat) :
    findBal (eraseBal bs o a) o a = none := by
  unfold findBal eraseBal
  rw [List.find?_eq_none]
  intro x hx
  have := (List.mem_filter.mp hx).2
  simpa using this

theorem findBal_eraseBal_other {o' o : Name} {a' a : Nat}
    (bs : List (Name × NftBalance)) (h : ¬(o' = o ∧ a' = a)) :
    findBal (eraseBal bs o a) o' a' = findBal bs o' a' := by
  induction bs with
  | nil => rfl
  | cons hd tl ih =>
    by_cases hk : balKey o a hd = true
    · have hne : balKey o' a' hd = false := by
        by_cases hb : balKey o' a' hd = true
        · have h3 : ((o', a') : Name × Nat) = (o, a) :=
            (balKey_eq_true.mp hb).symm.trans (balKey_eq_true.mp hk)
          exact absurd ⟨congrArg Prod.fst h3, congrArg Prod.snd h3⟩ h
        · simpa using hb
      unfold eraseBal at *
      rw [List.filter_cons]
      simp only [hk]
      unfold findBal at *
      rw [List.find?_cons_of_neg _ (by simp [hne])]
      exact ih
    · unfold eraseBal at *
      rw [List.filter_cons]
      have hk' : (!balKey o a hd) = true := by simp [Bool.not_eq_true] at hk ⊢; exact hk
      rw [if_pos hk']
      by_cases hb : balKey o' a' hd = true
      · unfold findBal
        rw [List.find?_cons_of_pos _ hb, List.find?_cons_of_pos _ hb]
      · unfold findBal at *
        rw [List.find?_cons_of_neg _ (by simp [hb]), List.find?_cons_of_neg _ (by simp [hb])]
        exact ih

theorem mapBal_cons (hd : Name × NftBalance) (tl : List (Name × NftBalance)) (o : Name)
    (a : Nat) (f : Int → Int) :
    mapBal (hd :: tl) o a f =
      (if balKey o a hd then (hd.1, ⟨hd.2.asset_id, f hd.2.balance⟩) else hd) :: mapBal tl o a f :=
  rfl

theorem mapBal_append (l1 l2 : List (Name × NftBalance)) (o : Name) (a : Nat) (f : Int → Int) :
    mapBal (l1 ++ l2) o a f = mapBal l1 o a f ++ mapBal l2 o a f := by
  unfold mapBal; rw [List.map_append]

theorem mapBal_eq_self {l : List (Name × NftBalance)} {o : Name} {a : Nat} (f : Int → Int)
    (h : ∀ y ∈ l, balKey o a y = false) : mapBal l o a f = l := by
  induction l with
  | nil => rfl
  | cons hd tl ih =>
    rw [mapBal_cons, if_neg (by simp [h hd (List.mem_cons_self hd tl)]),
      ih (fun y hy => h y (List.mem_cons_of_mem hd hy))]

theorem eraseBal_cons (hd : Name × NftBalance) (tl : List (Name × NftBalance)) (o : Name)
    (a : Nat) :
    eraseBal (hd :: tl) o a =
      (if balKey o a hd then eraseBal tl o a else hd :: eraseBal tl o a) := by
  unfold eraseBal
  rw [List.filter_cons]
  by_cases hk : balKey o a hd = true
  · rw [if_neg (by simp [hk]), if_pos hk]
  · rw [if_pos (by simp [Bool.not_eq_true] at hk ⊢; exact hk), if_neg hk]

theorem eraseBal_append (l1 l2 : List (Name × NftBalance)) (o : Name) (a : Nat) :
    eraseBal (l1 ++ l2) o a = eraseBal l1 o a ++ eraseBal l2 o a := by
  unfold eraseBal; rw [List.filter_append]

theorem eraseBal_eq_self {l : List (Name × NftBalance)} {o : Name} {a : Nat}
    (h : ∀ y ∈ l, balKey o a y = false) : eraseBal l o a = l :=
  List.filter_eq_self.mpr (fun y hy => by simp [h y hy])

theorem sumBal_cons (p : Name × NftBalance) (l : List (Name × NftBalance)) (aid : Nat) :
    sumBal (p :: l) aid = (if p.2.asset_id == aid then p.2.balance else 0) + sumBal l aid := by
  simp [sumBal]

theorem sumBal_append (l1 l2 : List (Name × NftBalance)) (aid : Nat) :
    sumBal (l1 ++ l2) aid = sumBal l1 aid + sumBal l2 aid := by
  simp [sumBal]

theorem sumBal_eq_zero {bs : List (Name × NftBalance)} {aid : Nat}
    (h : ∀ p ∈ bs, p.2.asset_id ≠ aid) : sumBal bs aid = 0 := by
  induction bs with
  | nil => rfl
  | cons hd tl ih =>
    rw [sumBal_cons, ih (fun p hp => h p (List.mem_cons_of_mem hd hp))]
    simp [h hd (List.mem_cons_self hd tl)]

theorem sumBal_mapBal_self {bs : List (Name × NftBalance)} {o : Name} {a : Nat}
    {p : Name × NftBalance} (f : Int → Int) (hu : uniqKeys bs)
    (h : findBal bs o a = some p) :
    sumBal (mapBal bs o a f) a = sumBal bs a - p.2.balance + f p.2.balance := by
  obtain ⟨l1, l2, heq, h1, h2, hp⟩ := uniq_decomp hu h
  subst heq
  rw [mapBal_append, mapBal_eq_self f h1, mapBal_cons, if_pos hp, mapBal_eq_self f h2]
  rw [sumBal_append, sumBal_append, sumBal_cons, sumBal_cons]
  have ha : p.2.asset_id = a := congrArg Prod.snd (balKey_eq_true.mp hp)
  simp only [ha, beq_self_eq_true, if_true]
  ring

theorem sumBal_mapBal_other {bs : List (Name × NftBalance)} {o : Name} {a aid : Nat}
    (f : Int → Int) (haid : a ≠ aid) :
    sumBal (mapBal bs o a f) aid = sumBal bs aid := by
  induction bs with
  | nil => rfl
  | cons hd tl ih =>
    rw [mapBal_cons, sumBal_cons, sumBal_cons, ih]
    congr 1
    by_cases hk : balKey o a hd = true
    · rw [if_pos hk]
      have ha : hd.2.asset_id = a := congrArg Prod.snd (balKey_eq_true.mp hk)
      simp [ha, haid]
    · rw [if_neg hk]

theorem sumBal_eraseBal_self {bs : List (Name × NftBalance)} {o : Name} {a : Nat}
    {p : Name × NftBalance} (hu : uniqKeys bs) (h : findBal bs o a = some p) :
    sumBal (eraseBal bs o a) a = sumBal bs a - p.2.balance := by
  obtain ⟨l1, l2, heq, h1, h2, hp⟩ := uniq_decomp hu h
  subst heq
  rw [eraseBal_append, eraseBal_eq_self h1, eraseBal_cons, if_pos hp, eraseBal_eq_self h2]
  rw [sumBal_append, sumBal_append, sumBal_cons]
  have ha : p.2.asset_id = a := congrArg Prod.snd (balKey_eq_true.mp hp)
  simp only [ha, beq_self_eq_true, if_true]
  ring

theorem sumBal_eraseBal_other {bs : List (Name × NftBalance)} {o : Name} {a aid : Nat}
    (haid : a ≠ aid) :
    sumBal (eraseBal bs o a) aid = sumBal bs aid := by
  induction bs with
  | nil => rfl
  | cons hd tl ih =>
    rw [eraseBal_cons]
    by_cases hk : balKey o a hd = true
    · rw [if_pos hk, ih, sumBal_cons]
      have ha : hd.2.asset_id = a := congrArg Prod.snd (balKey_eq_true.mp hk)
      simp [ha, haid]
    · rw [if_neg hk, sumBal_cons, sumBal_cons, ih]

theorem keyOf_mapped (o : Name) (a : Nat) (p : Name × NftBalance) (f : Int → Int) :
    keyOf (if balKey o a p then (p.1, ⟨p.2.asset_id, f p.2.balance⟩) else p) = keyOf p := by
  by_cases h : balKey o a p = true
  · rw [if_pos h]; rfl
  · rw [if_neg h]

theorem uniqKeys_mapBal {bs : List (Name × NftBalance)} {o : Name} {a : Nat}
    (f : Int → Int) (hu : uniqKeys bs) : uniqKeys (mapBal bs o a f) := by
  unfold mapBal uniqKeys
  rw [List.pairwise_map]
  exact hu.imp (fun hpq => by rw [keyOf_mapped, keyOf_mapped]; exact hpq)

theorem uniqKeys_eraseBal {bs : List (Name × NftBalance)} (o : Name) (a : Nat)
    (hu : uniqKeys bs) : uniqKeys (eraseBal bs o a) :=
  List.Pairwise.sublist (List.filter_sublist bs) hu

theorem uniqKeys_append_new {bs : List (Name × NftBalance)} {o : Name} {a : Nat}
    (amt : Int) (hu : uniqKeys bs) (h : findBal bs o a = none) :
    uniqKeys (bs ++ [(o, ⟨a, amt⟩)]) := by
  unfold uniqKeys
  rw [List.pairwise_append]
  refine ⟨hu, List.pairwise_singleton _ _, ?_⟩
  intro x hx y hy
  rw [List.mem_singleton] at hy
  subst hy
  intro hcontra
  exact (List.find?_eq_none.mp h x hx) (balKey_eq_true.mpr (by simpa [keyOf] using hcontra))

theorem allPos_eraseBal {bs : List (Name × NftBalance)} (o : Name) (a : Nat)
    (hpos : allPos bs) : allPos (eraseBal bs o a) :=
  fun p hp => hpos p (List.mem_filter.mp hp).1

theorem allPos_append_pos {bs : List (Name × NftBalance)} {x : Name × NftBalance}
    (hpos : allPos bs) (hx : 0 < x.2.balance) : allPos (bs ++ [x]) := by
  intro p hp
  rcases List.mem_append.mp hp with h | h
  · exact hpos p h
  · rw [List.mem_singleton] at h; subst h; exact hx

theorem allPos_mapBal_add {bs : List (Name × NftBalance)} {o : Name} {a : Nat} {amt : Int}
    (hpos : allPos bs) (hamt : 0 < amt) :
    allPos (mapBal bs o a (fun b => b + amt)) := by
  intro p hp
  unfold mapBal at hp
  obtain ⟨q, hq, hqe⟩ := List.mem_map.mp hp
  by_cases hk : balKey o a q = true
  · rw [if_pos hk] at hqe
    subst hqe
    exact add_pos (hpos q hq) hamt
  · rw [if_neg hk] at hqe
    subst hqe
    exact hpos q hq

theorem allPos_mapBal_sub {bs : List (Name × NftBalance)} {o : Name} {a : Nat}
    {p : Name × NftBalance} {amt : Int} (hu : uniqKeys bs) (hpos : allPos bs)
    (h : findBal bs o a = some p) (hlt : amt < p.2.balance) :
    allPos (mapBal bs o a (fun b => b - amt)) := by
  obtain ⟨l1, l2, heq, h1, h2, hp⟩ := uniq_decomp hu h
  subst heq
  rw [mapBal_append, mapBal_eq_self _ h1, mapBal_cons, if_pos hp, mapBal_eq_self _ h2]
  intro q hq
  rcases List.mem_append.mp hq with hin | hin
  · exact hpos q (List.mem_append_left _ hin)
  · rcases List.mem_cons.mp hin with h' | h'
    · subst h'
      simpa using sub_pos.mpr hlt
    · exact hpos q (List.mem_append_right _ (List.mem_cons_of_mem _ h'))

theorem findBal_append_none {bs : List (Name × NftBalance)} {o : Name} {a : Nat}
    (x : Name × NftBalance) (h : findBal bs o a = none) :
    findBal (bs ++ [x]) o a = if balKey o a x then some x else none := by
  unfold findBal at *
  rw [List.find?_append, h]
  simp

theorem findBal_append_some {bs : List (Name × NftBalance)} {o : Name} {a : Nat}
    {p : Name × NftBalance} (x : Name × NftBalance) (h : findBal bs o a = some p) :
    findBal (bs ++ [x]) o a = some p := by
  unfold findBal at *
  rw [List.find?_append, h]
  rfl

/-! ## Lemmas about the asset and collection tables -/

theorem assetKey_mapped (aid aid' : Nat) (x : NftAsset) (f : Nat → Nat) :
    assetKey aid' (if assetKey aid x then { x with supply := f x.supply } else x) =
      assetKey aid' x := by
  by_cases h : assetKey aid x = true
  · rw [if_pos h]; simp [assetKey]
  · rw [if_neg h]

theorem findA_mapSupply_self (l : List NftAsset) (aid : Nat) (f : Nat → Nat) :
    (mapSupply l aid f).find? (assetKey aid) =
      (l.find? (assetKey aid)).map (fun a => { a with supply := f a.supply }) := by
  unfold mapSupply
  rw [List.find?_map]
  have hcomp : (assetKey aid) ∘
      (fun x => if assetKey aid x then ({ x with supply := f x.supply } : NftAsset) else x) =
      assetKey aid := by
    funext x
    exact assetKey_mapped aid aid x f
  rw [hcomp]
  cases hf : l.find? (assetKey aid) with
  | none => rfl
  | some x => simp [List.find?_some hf]

theorem findA_mapSupply_other {aid' aid : Nat} (l : List NftAsset) (f : Nat → Nat)
    (h : aid' ≠ aid) :
    (mapSupply l aid f).find? (assetKey aid') = l.find? (assetKey aid') := by
  unfold mapSupply
  rw [List.find?_map]
  have hcomp : (assetKey aid') ∘
      (fun x => if assetKey aid x then ({ x with supply := f x.supply } : NftAsset) else x) =
      assetKey aid' := by
    funext x
    exact assetKey_mapped aid aid' x f
  rw [hcomp]
  cases hf : l.find? (assetKey aid') with
  | none => rfl
  | some x =>
    have hx : x.asset_id = aid' := by simpa [assetKey] using List.find?_some hf
    have hne : assetKey aid x = false := by simp [assetKey, hx, h]
    simp [hne]

theorem findA_append_some {l : List NftAsset} {aid : Nat} {a : NftAsset} (x : NftAsset)
    (h : l.find? (assetKey aid) = some a) :
    (l ++ [x]).find? (assetKey aid) = some a := by
  rw [List.find?_append, h]
  rfl

theorem findA_append_none {l : List NftAsset} {aid : Nat} (x : NftAsset)
    (h : l.find? (assetKey aid) = none) :
    (l ++ [x]).find? (assetKey aid) = if assetKey aid x then some x else none := by
  rw [List.find?_append, h]
  simp

theorem findCol_append_some {l : List NftCollection} {cid : Nat} {c : NftCollection}
    (x : NftCollection) (h : l.find? (colKey cid) = some c) :
    (l ++ [x]).find? (colKey cid) = some c := by
  rw [List.find?_append, h]
  rfl

theorem le_foldl_max (l : List Nat) : ∀ i : Nat, i ≤ l.foldl max i ∧ ∀ x ∈ l, x ≤ l.foldl max i := by
  induction l with
  | nil => intro i; exact ⟨le_refl i, by simp⟩
  | cons hd tl ih =>
    intro i
    rw [List.foldl_cons]
    refine ⟨le_trans (le_max_left i hd) (ih (max i hd)).1, ?_⟩
    intro x hx
    rcases List.mem_cons.mp hx with h | h
    · subst h; exact le_trans (le_max_right i x) (ih (max i x)).1
    · exact (ih (max i hd)).2 x h

/-- The freshly allocated id (`available_primary_key` bumped to 1 when 0) is
strictly greater than every stored id. -/
theorem fresh_id_gt (ids : List Nat) : ∀ x ∈ ids, x < allocId ids := by
  intro x hx
  unfold allocId available_primary_key
  have hne : ids.isEmpty = false := by
    cases ids with
    | nil => cases hx
    | cons hd tl => rfl
  rw [if_neg (by simp [hne]), if_neg (by simp [hne])]
  have hle := (le_foldl_max ids 0).2 x hx
  omega

theorem foldl_max_range' (n : Nat) : (List.range' 1 n).foldl max 0 = n := by
  induction n with
  | zero => rfl
  | succ k ih =>
    rw [List.range'_concat, List.foldl_append, ih]
    simp only [List.foldl_cons, List.foldl_nil, Nat.one_mul]
    rw [max_eq_right (by omega)]
    omega

/-! ## Inversion lemmas for the operations -/

theorem sub_balance_ok_inv {st : ChainState} {o : Name} {a : Nat} {amt ret : Int}
    {st' : ChainState} (h : sub_balance st o a amt = .ok (st', ret)) :
    ∃ p, findBal st.balances o a = some p ∧ amt ≤ p.2.balance ∧
      ((p.2.balance = amt ∧
          st' = { st with balances := eraseBal st.balances o a } ∧ ret = 0) ∨
        (amt < p.2.balance ∧
          st' = { st with balances := mapBal st.balances o a (fun b => b - amt) } ∧
          ret = p.2.balance - amt)) := by
  unfold sub_balance at h
  split at h
  · exact absurd h (by simp)
  next p hp =>
    split at h
    · exact absurd h (by simp)
    next hlt =>
      split at h
      next heq =>
        simp only [Except.ok.injEq, Prod.mk.injEq] at h
        exact ⟨p, hp, le_of_not_lt hlt, Or.inl ⟨heq, h.1.symm, h.2.symm⟩⟩
      next hne =>
        simp only [Except.ok.injEq, Prod.mk.injEq] at h
        exact ⟨p, hp, le_of_not_lt hlt,
          Or.inr ⟨lt_of_le_of_ne (le_of_not_lt hlt) (Ne.symm hne), h.1.symm, h.2.symm⟩⟩

theorem mint_ok_inv {env : Env} {st : ChainState} {dst : Name} {asset_id : Nat}
    {amount : Int} {memo : String} {st' : ChainState} {ev : Event}
    {q : Option (Name × Name × Nat × Int × String)}
    (h : mint env st dst asset_id amount memo = .ok (st', ev, q)) :
    ∃ ast col,
      memo.length ≤ 256 ∧
      findAsset st asset_id = some ast ∧
      findCol st ast.collection_id = some col ∧
      col.author ∈ env.auths ∧
      0 < amount ∧
      (ast.supply + amount.toNat) % U64 ≤ ast.max_supply ∧
      st' = (add_balance { st with
          assets := mapSupply st.assets asset_id (fun s => (s + amount.toNat) % U64) }
          dst asset_id amount col.author).1 ∧
      ev = Event.transferlog 0 col.author asset_id amount 0
        (add_balance { st with
          assets := mapSupply st.assets asset_id (fun s => (s + amount.toNat) % U64) }
          dst asset_id amount col.author).2 memo ∧
      q = (if dst ≠ col.author then some (col.author, dst, asset_id, amount, memo)
        else none) := by
  unfold mint at h
  split at h
  · exact absurd h (by simp)
  next hmemo =>
    split at h
    · exact absurd h (by simp)
    next ast hast =>
      split at h
      · exact absurd h (by simp)
      next col hcol =>
        split at h
        · exact absurd h (by simp)
        next hauth =>
          split at h
          · exact absurd h (by simp)
          next hamt =>
            split at h
            · exact absurd h (by simp)
            next hcap =>
              simp only [Except.ok.injEq, Prod.mk.injEq] at h
              exact ⟨ast, col, not_not.mp hmemo, hast, hcol, not_not.mp hauth,
                not_not.mp hamt, not_not.mp hcap, h.1.symm, h.2.1.symm, h.2.2.symm⟩

theorem transfer_ok_inv {env : Env} {st : ChainState} {frm dst : Name} {asset_id : Nat}
    {amount : Int} {memo : String} {st' : ChainState} {ev : Event}
    (h : transfer env st frm dst asset_id amount memo = .ok (st', ev)) :
    ∃ stm ret,
      frm ≠ dst ∧ frm ∈ env.auths ∧ env.is_account dst = true ∧
      (findAsset st asset_id).isSome ∧ 0 < amount ∧ memo.length ≤ 256 ∧
      sub_balance st frm asset_id amount = .ok (stm, ret) ∧
      st' = (add_balance stm dst asset_id amount
        (if dst ∈ env.auths then dst else frm)).1 ∧
      ev = .transferlog frm dst asset_id amount ret
        (add_balance stm dst asset_id amount (if dst ∈ env.auths then dst else frm)).2
        memo := by
  unfold transfer at h
  split at h
  · exact absurd h (by simp)
  next hne =>
    split at h
    · exact absurd h (by simp)
    next hauth =>
      split at h
      · exact absurd h (by simp)
      next hacct =>
        split at h
        · exact absurd h (by simp)
        next ast hast =>
          split at h
          · exact absurd h (by simp)
          next hamt =>
            split at h
            · exact absurd h (by simp)
            next hmemo =>
              split at h
              · exact absurd h (by simp)
              next stm ret hsub =>
                simp only [Except.ok.injEq, Prod.mk.injEq] at h
                exact ⟨stm, ret, hne, not_not.mp hauth, by simpa using hacct,
                  by simp [hast], not_not.mp hamt,
                  not_not.mp hmemo, hsub, h.1.symm, h.2.symm⟩

theorem mintTx_ok_inv {env : Env} {st : ChainState} {dst : Name} {asset_id : Nat}
    {amount : Int} {memo : String} {st' : ChainState} {evs : List Event}
    (h : mintTx env st dst asset_id amount memo = .ok (st', evs)) :
    ∃ st1 ev q, mint env st dst asset_id amount memo = .ok (st1, ev, q) ∧
      ((q = none ∧ st' = st1 ∧ evs = [ev]) ∨
        (∃ f t aid amt m st2 ev2, q = some (f, t, aid, amt, m) ∧
          transfer { env with auths := [f] } st1 f t aid amt m = .ok (st2, ev2) ∧
          st' = st2 ∧ evs = [ev, ev2])) := by
  unfold mintTx at h
  split at h
  · exact absurd h (by simp)
  next st1 ev heq =>
    simp only [Except.ok.injEq, Prod.mk.injEq] at h
    exact ⟨st1, ev, none, heq, Or.inl ⟨rfl, h.1.symm, h.2.symm⟩⟩
  next st1 ev f t aid amt m heq =>
    split at h
    · exact absurd h (by simp)
    next st2 ev2 htr =>
      simp only [Except.ok.injEq, Prod.mk.injEq] at h
      exact ⟨st1, ev, some (f, t, aid, amt, m), heq,
        Or.inr ⟨f, t, aid, amt, m, st2, ev2, rfl, htr, h.1.symm, h.2.symm⟩⟩

theorem burn_ok_inv {env : Env} {st : ChainState} {asset_id : Nat} {amount : Int}
    {memo : String} {st' : ChainState} {ev : Event}
    (h : burn env st asset_id amount memo = .ok (st', ev)) :
    ∃ ast col stm ret,
      memo.length ≤ 256 ∧ 0 < amount ∧
      findAsset st asset_id = some ast ∧ amount.toNat ≤ ast.supply ∧
      findCol st ast.collection_id = some col ∧ col.author ∈ env.auths ∧
      sub_balance { st with
          assets := mapSupply st.assets asset_id (fun s => s - amount.toNat) }
        col.author asset_id amount = .ok (stm, ret) ∧
      st' = stm ∧ ev = .transferlog col.author 0 asset_id amount ret 0 memo := by
  unfold burn at h
  split at h
  · exact absurd h (by simp)
  next hmemo =>
    split at h
    · exact absurd h (by simp)
    next hamt =>
      split at h
      · exact absurd h (by simp)
      next ast hast =>
        split at h
        · exact absurd h (by simp)
        next hsup =>
          split at h
          · exact absurd h (by simp)
          next col hcol =>
            split at h
            · exact absurd h (by simp)
            next hauth =>
              split at h
              · exact absurd h (by simp)
              next stm ret hsub =>
                simp only [Except.ok.injEq, Prod.mk.injEq] at h
                exact ⟨ast, col, stm, ret, not_not.mp hmemo, not_not.mp hamt, hast,
                  not_not.mp hsup, hcol, not_not.mp hauth, hsub, h.1.symm, h.2.symm⟩

theorem createcol_ok_inv {env : Env} {st : ChainState} {author : Name} {roy : Nat}
    {data : String} {st' : ChainState} {ev : Event}
    (h : createcol env st author roy data = .ok (st', ev)) :
    env.self ∈ env.auths ∧ roy ≤ 1000 ∧ data.length ≤ 65535 ∧
    env.is_account author = true ∧
    st' = { st with collections := st.collections ++
        [⟨allocId (st.collections.map (fun c => c.collection_id)), author, roy, data⟩] } ∧
    ev = .collog (allocId (st.collections.map (fun c => c.collection_id)))
      author roy data := by
  unfold createcol at h
  split at h
  · exact absurd h (by simp)
  next hself =>
    split at h
    · exact absurd h (by simp)
    next hroy =>
      split at h
      · exact absurd h (by simp)
      next hdata =>
        split at h
        · exact absurd h (by simp)
        next hacct =>
          simp only [Except.ok.injEq, Prod.mk.injEq] at h
          exact ⟨not_not.mp hself, not_not.mp hroy, not_not.mp hdata,
            by simpa using hacct, h.1.symm, h.2.symm⟩

theorem createasset_ok_inv {env : Env} {st : ChainState} {cid sup maxs : Nat}
    {data : String} {st' : ChainState} {evs : List Event}
    (h : createasset env st cid sup maxs data = .ok (st', evs)) :
    ∃ col,
      0 < maxs ∧ data.length ≤ 65535 ∧ findCol st cid = some col ∧
      col.author ∈ env.auths ∧
      ((sup = 0 ∧
          st' = { st with assets := st.assets ++
            [⟨allocId (st.assets.map (fun a => a.asset_id)), cid, 0, maxs, data⟩] } ∧
          evs = [.assetlog (allocId (st.assets.map (fun a => a.asset_id))) cid maxs data]) ∨
        (0 < sup ∧ ∃ st2 evs2,
          mintTx env { st with assets := st.assets ++
              [⟨allocId (st.assets.map (fun a => a.asset_id)), cid, 0, maxs, data⟩] }
            col.author (allocId (st.assets.map (fun a => a.asset_id)))
            (toInt64 sup) "create and mint" = .ok (st2, evs2) ∧
          st' = st2 ∧
          evs = .assetlog (allocId (st.assets.map (fun a => a.asset_id))) cid maxs data
            :: evs2)) := by
  unfold createasset at h
  split at h
  · exact absurd h (by simp)
  next hmax =>
    split at h
    · exact absurd h (by simp)
    next hdata =>
      split at h
      · exact absurd h (by simp)
      next col hcol =>
        split at h
        · exact absurd h (by simp)
        next hauth =>
          split at h
          next hsup =>
            split at h
            · exact absurd h (by simp)
            next st2 evs2 hmint =>
              simp only [Except.ok.injEq, Prod.mk.injEq] at h
              exact ⟨col, not_not.mp hmax, not_not.mp hdata, hcol, not_not.mp hauth,
                Or.inr ⟨hsup, st2, evs2, hmint, h.1.symm, h.2.symm⟩⟩
          next hsup =>
            simp only [Except.ok.injEq, Prod.mk.injEq] at h
            exact ⟨col, not_not.mp hmax, not_not.mp hdata, hcol, not_not.mp hauth,
              Or.inl ⟨by omega, h.1.symm, h.2.symm⟩⟩

instance (bs : List (Name × NftBalance)) : Decidable (allPos bs) :=
  List.decidableBAll _ bs

instance (bs : List (Name × NftBalance)) : Decidable (uniqKeys bs) :=
  List.instDecidablePairwise bs

deriving instance DecidableEq for Except

instance (st : ChainState) : Decidable (SumEq st) :=
  List.decidableBAll _ st.assets

instance (st : ChainState) : Decidable (SumInv st) :=
  List.decidableBAll _ st.assets

instance (st : ChainState) : Decidable (balRefs st) :=
  List.decidableBAll _ st.balances

/-! ## Effect lemmas for `add_balance` and `sub_balance` -/

theorem effBal_eq_of_find {st : ChainState} {o : Name} {a : Nat} {p : Name × NftBalance}
    (h : findBal st.balances o a = some p) : effBal st o a = p.2.balance := by
  unfold effBal
  rw [h]
  rfl

theorem effBal_eq_zero_of_none {st : ChainState} {o : Name} {a : Nat}
    (h : findBal st.balances o a = none) : effBal st o a = 0 := by
  unfold effBal
  rw [h]
  rfl

theorem add_balance_eq_none {st : ChainState} {o : Name} {a : Nat} {amt : Int}
    {payer : Name} (h : findBal st.balances o a = none) :
    add_balance st o a amt payer =
      ({ st with balances := st.balances ++ [(o, ⟨a, amt⟩)] }, amt) := by
  unfold add_balance
  rw [h]

theorem add_balance_eq_some {st : ChainState} {o : Name} {a : Nat} {amt : Int}
    {payer : Name} {p : Name × NftBalance} (h : findBal st.balances o a = some p) :
    add_balance st o a amt payer =
      ({ st with balances := mapBal st.balances o a (fun b => b + amt) },
        p.2.balance + amt) := by
  unfold add_balance
  rw [h]

theorem add_balance_collections (st : ChainState) (o : Name) (a : Nat) (amt : Int)
    (payer : Name) : (add_balance st o a amt payer).1.collections = st.collections := by
  cases h : findBal st.balances o a with
  | none => rw [add_balance_eq_none h]
  | some p => rw [add_balance_eq_some h]

theorem add_balance_assets (st : ChainState) (o : Name) (a : Nat) (amt : Int)
    (payer : Name) : (add_balance st o a amt payer).1.assets = st.assets := by
  cases h : findBal st.balances o a with
  | none => rw [add_balance_eq_none h]
  | some p => rw [add_balance_eq_some h]

theorem add_balance_ret (st : ChainState) (o : Name) (a : Nat) (amt : Int) (payer : Name) :
    (add_balance st o a amt payer).2 = effBal st o a + amt := by
  cases h : findBal st.balances o a with
  | none => rw [add_balance_eq_none h, effBal_eq_zero_of_none h]; simp
  | some p => rw [add_balance_eq_some h, effBal_eq_of_find h]

theorem add_balance_effBal_self (st : ChainState) (o : Name) (a : Nat) (amt : Int)
    (payer : Name) : effBal (add_balance st o a amt payer).1 o a = effBal st o a + amt := by
  cases h : findBal st.balances o a with
  | none =>
    rw [add_balance_eq_none h, effBal_eq_zero_of_none h]
    unfold effBal
    rw [show ({ st with balances := st.balances ++ [(o, ⟨a, amt⟩)] } : ChainState).balances =
      st.balances ++ [(o, ⟨a, amt⟩)] from rfl]
    rw [findBal_append_none _ h, if_pos (by simp [balKey])]
    simp
  | some p =>
    rw [add_balance_eq_some h, effBal_eq_of_find h]
    unfold effBal
    rw [show ({ st with balances := mapBal st.balances o a (fun b => b + amt) } :
      ChainState).balances = mapBal st.balances o a (fun b => b + amt) from rfl]
    rw [findBal_mapBal_self, h]
    rfl

theorem add_balance_effBal_other (st : ChainState) (o : Name) (a : Nat) (amt : Int)
    (payer : Name) {o' : Name} {a' : Nat} (hne : ¬(o' = o ∧ a' = a)) :
    effBal (add_balance st o a amt payer).1 o' a' = effBal st o' a' := by
  cases h : findBal st.balances o a with
  | none =>
    rw [add_balance_eq_none h]
    unfold effBal
    rw [show ({ st with balances := st.balances ++ [(o, ⟨a, amt⟩)] } : ChainState).balances =
      st.balances ++ [(o, ⟨a, amt⟩)] from rfl]
    cases h2 : findBal st.balances o' a' with
    | none =>
      rw [findBal_append_none _ h2, if_neg (by simp [balKey]; tauto)]
    | some p =>
      rw [findBal_append_some _ h2]
  | some p =>
    rw [add_balance_eq_some h]
    unfold effBal
    rw [show ({ st with balances := mapBal st.balances o a (fun b => b + amt) } :
      ChainState).balances = mapBal st.balances o a (fun b => b + amt) from rfl]
    rw [findBal_mapBal_other _ _ hne]

theorem add_balance_sum_self {st : ChainState} (o : Name) (a : Nat) (amt : Int)
    (payer : Name) (hu : uniqKeys st.balances) :
    sumBal (add_balance st o a amt payer).1.balances a = sumBal st.balances a + amt := by
  cases h : findBal st.balances o a with
  | none =>
    rw [add_balance_eq_none h]
    rw [show ({ st with balances := st.balances ++ [(o, ⟨a, amt⟩)] } : ChainState).balances =
      st.balances ++ [(o, ⟨a, amt⟩)] from rfl]
    rw [sumBal_append, sumBal_cons]
    simp [sumBal]
  | some p =>
    rw [add_balance_eq_some h]
    rw [show ({ st with balances := mapBal st.balances o a (fun b => b + amt) } :
      ChainState).balances = mapBal st.balances o a (fun b => b + amt) from rfl]
    rw [sumBal_mapBal_self _ hu h]
    ring

theorem add_balance_sum_other {st : ChainState} (o : Name) (a : Nat) (amt : Int)
    (payer : Name) {aid : Nat} (hne : a ≠ aid) :
    sumBal (add_balance st o a amt payer).1.balances aid = sumBal st.balances aid := by
  cases h : findBal st.balances o a with
  | none =>
    rw [add_balance_eq_none h]
    rw [show ({ st with balances := st.balances ++ [(o, ⟨a, amt⟩)] } : ChainState).balances =
      st.balances ++ [(o, ⟨a, amt⟩)] from rfl]
    rw [sumBal_append, sumBal_cons]
    simp [sumBal, hne]
  | some p =>
    rw [add_balance_eq_some h]
    rw [show ({ st with balances := mapBal st.balances o a (fun b => b + amt) } :
      ChainState).balances = mapBal st.balances o a (fun b => b + amt) from rfl]
    rw [sumBal_mapBal_other _ hne]

theorem add_balance_uniq {st : ChainState} (o : Name) (a : Nat) (amt : Int) (payer : Name)
    (hu : uniqKeys st.balances) : uniqKeys (add_balance st o a amt payer).1.balances := by
  cases h : findBal st.balances o a with
  | none =>
    rw [add_balance_eq_none h]
    show uniqKeys (st.balances ++ [(o, ⟨a, amt⟩)])
    exact uniqKeys_append_new amt hu h
  | some p =>
    rw [add_balance_eq_some h]
    show uniqKeys (mapBal st.balances o a (fun b => b + amt))
    exact uniqKeys_mapBal _ hu

theorem add_balance_allPos {st : ChainState} (o : Name) (a : Nat) {amt : Int} (payer : Name)
    (hpos : allPos st.balances) (hamt : 0 < amt) :
    allPos (add_balance st o a amt payer).1.balances := by
  cases h : findBal st.balances o a with
  | none =>
    rw [add_balance_eq_none h]
    show allPos (st.balances ++ [(o, ⟨a, amt⟩)])
    exact allPos_append_pos hpos hamt
  | some p =>
    rw [add_balance_eq_some h]
    show allPos (mapBal st.balances o a (fun b => b + amt))
    exact allPos_mapBal_add hpos hamt

theorem sub_balance_collections {st stm : ChainState} {o : Name} {a : Nat} {amt ret : Int}
    (h : sub_balance st o a amt = .ok (stm, ret)) : stm.collections = st.collections := by
  obtain ⟨p, hp, hle, hcase⟩ := sub_balance_ok_inv h
  rcases hcase with ⟨heq, hst, hret⟩ | ⟨hlt, hst, hret⟩ <;> rw [hst]

theorem sub_balance_assets {st stm : ChainState} {o : Name} {a : Nat} {amt ret : Int}
    (h : sub_balance st o a amt = .ok (stm, ret)) : stm.assets = st.assets := by
  obtain ⟨p, hp, hle, hcase⟩ := sub_balance_ok_inv h
  rcases hcase with ⟨heq, hst, hret⟩ | ⟨hlt, hst, hret⟩ <;> rw [hst]

theorem sub_balance_requires {st stm : ChainState} {o : Name} {a : Nat} {amt ret : Int}
    (h : sub_balance st o a amt = .ok (stm, ret)) : amt ≤ effBal st o a := by
  obtain ⟨p, hp, hle, hcase⟩ := sub_balance_ok_inv h
  rw [effBal_eq_of_find hp]
  exact hle

theorem sub_balance_effBal_self {st stm : ChainState} {o : Name} {a : Nat} {amt ret : Int}
    (h : sub_balance st o a amt = .ok (stm, ret)) :
    effBal stm o a = effBal st o a - amt ∧ ret = effBal st o a - amt := by
  obtain ⟨p, hp, hle, hcase⟩ := sub_balance_ok_inv h
  rw [effBal_eq_of_find hp]
  rcases hcase with ⟨heq, hst, hret⟩ | ⟨hlt, hst, hret⟩
  · subst hst
    rw [hret, heq]
    constructor
    · rw [show effBal { st with balances := eraseBal st.balances o a } o a =
        ((findBal (eraseBal st.balances o a) o a).map (fun p => p.2.balance)).getD 0 from rfl]
      rw [findBal_eraseBal_self]
      simp
    · ring
  · subst hst
    rw [hret]
    refine ⟨?_, rfl⟩
    rw [show effBal { st with balances := mapBal st.balances o a (fun b => b - amt) } o a =
      ((findBal (mapBal st.balances o a (fun b => b - amt)) o a).map
        (fun p => p.2.balance)).getD 0 from rfl]
    rw [findBal_mapBal_self, hp]
    rfl

theorem sub_balance_effBal_other {st stm : ChainState} {o : Name} {a : Nat} {amt ret : Int}
    {o' : Name} {a' : Nat} (h : sub_balance st o a amt = .ok (stm, ret))
    (hne : ¬(o' = o ∧ a' = a)) : effBal stm o' a' = effBal st o' a' := by
  obtain ⟨p, hp, hle, hcase⟩ := sub_balance_ok_inv h
  rcases hcase with ⟨heq, hst, hret⟩ | ⟨hlt, hst, hret⟩
  · subst hst
    rw [show effBal { st with balances := eraseBal st.balances o a } o' a' =
      ((findBal (eraseBal st.balances o a) o' a').map (fun p => p.2.balance)).getD 0 from rfl]
    rw [findBal_eraseBal_other _ hne]
    rfl
  · subst hst
    rw [show effBal { st with balances := mapBal st.balances o a (fun b => b - amt) } o' a' =
      ((findBal (mapBal st.balances o a (fun b => b - amt)) o' a').map
        (fun p => p.2.balance)).getD 0 from rfl]
    rw [findBal_mapBal_other _ _ hne]
    rfl

theorem sub_balance_sum_self {st stm : ChainState} {o : Name} {a : Nat} {amt ret : Int}
    (hu : uniqKeys st.balances) (h : sub_balance st o a amt = .ok (stm, ret)) :
    sumBal stm.balances a = sumBal st.balances a - amt := by
  obtain ⟨p, hp, hle, hcase⟩ := sub_balance_ok_inv h
  rcases hcase with ⟨heq, hst, hret⟩ | ⟨hlt, hst, hret⟩
  · subst hst
    rw [show ({ st with balances := eraseBal st.balances o a } : ChainState).balances =
      eraseBal st.balances o a from rfl]
    rw [sumBal_eraseBal_self hu hp, heq]
  · subst hst
    rw [show ({ st with balances := mapBal st.balances o a (fun b => b - amt) } :
      ChainState).balances = mapBal st.balances o a (fun b => b - amt) from rfl]
    rw [sumBal_mapBal_self _ hu hp]
    ring

theorem sub_balance_sum_other {st stm : ChainState} {o : Name} {a : Nat} {amt ret : Int}
    {aid : Nat} (h : sub_balance st o a amt = .ok (stm, ret)) (hne : a ≠ aid) :
    sumBal stm.balances aid = sumBal st.balances aid := by
  obtain ⟨p, hp, hle, hcase⟩ := sub_balance_ok_inv h
  rcases hcase with ⟨heq, hst, hret⟩ | ⟨hlt, hst, hret⟩
  · subst hst
    show sumBal (eraseBal st.balances o a) aid = sumBal st.balances aid
    exact sumBal_eraseBal_other hne
  · subst hst
    show sumBal (mapBal st.balances o a (fun b => b - amt)) aid = sumBal st.balances aid
    exact sumBal_mapBal_other _ hne

theorem sub_balance_uniq {st stm : ChainState} {o : Name} {a : Nat} {amt ret : Int}
    (hu : uniqKeys st.balances) (h : sub_balance st o a amt = .ok (stm, ret)) :
    uniqKeys stm.balances := by
  obtain ⟨p, hp, hle, hcase⟩ := sub_balance_ok_inv h
  rcases hcase with ⟨heq, hst, hret⟩ | ⟨hlt, hst, hret⟩
  · subst hst
    show uniqKeys (eraseBal st.balances o a)
    exact uniqKeys_eraseBal o a hu
  · subst hst
    show uniqKeys (mapBal st.balances o a (fun b => b - amt))
    exact uniqKeys_mapBal _ hu

theorem sub_balance_allPos {st stm : ChainState} {o : Name} {a : Nat} {amt ret : Int}
    (hu : uniqKeys st.balances) (hpos : allPos st.balances)
    (h : sub_balance st o a amt = .ok (stm, ret)) : allPos stm.balances := by
  obtain ⟨p, hp, hle, hcase⟩ := sub_balance_ok_inv h
  rcases hcase with ⟨heq, hst, hret⟩ | ⟨hlt, hst, hret⟩
  · subst hst
    show allPos (eraseBal st.balances o a)
    exact allPos_eraseBal o a hpos
  · subst hst
    show allPos (mapBal st.balances o a (fun b => b - amt))
    exact allPos_mapBal_sub hu hpos hp hlt

/-! ## Asset-table uniqueness and `mapSupply` decomposition -/

/-- multi_index primary keys are unique: no two asset rows share an id. -/
def uniqAssets (l : List NftAsset) : Prop :=
  l.Pairwise (fun x y => x.asset_id ≠ y.asset_id)

instance (l : List NftAsset) : Decidable (uniqAssets l) :=
  List.instDecidablePairwise l

theorem assetKey_eq_true {aid : Nat} {x : NftAsset} :
    assetKey aid x = true ↔ x.asset_id = aid := by
  simp [assetKey]

theorem mapSupply_cons (hd : NftAsset) (tl : List NftAsset) (aid : Nat) (f : Nat → Nat) :
    mapSupply (hd :: tl) aid f =
      (if assetKey aid hd then { hd with supply := f hd.supply } else hd) ::
        mapSupply tl aid f :=
  rfl

theorem mapSupply_append (l1 l2 : List NftAsset) (aid : Nat) (f : Nat → Nat) :
    mapSupply (l1 ++ l2) aid f = mapSupply l1 aid f ++ mapSupply l2 aid f := by
  unfold mapSupply; rw [List.map_append]

theorem mapSupply_eq_self {l : List NftAsset} {aid : Nat} (f : Nat → Nat)
    (h : ∀ y ∈ l, assetKey aid y = false) : mapSupply l aid f = l := by
  induction l with
  | nil => rfl
  | cons hd tl ih =>
    rw [mapSupply_cons, if_neg (by simp [h hd (List.mem_cons_self hd tl)]),
      ih (fun y hy => h y (List.mem_cons_of_mem hd hy))]

theorem uniqA_decomp {l : List NftAsset} {aid : Nat} {x : NftAsset}
    (hu : uniqAssets l) (h : l.find? (assetKey aid) = some x) :
    ∃ l1 l2, l = l1 ++ x :: l2 ∧ (∀ y ∈ l1, assetKey aid y = false) ∧
      (∀ y ∈ l2, assetKey aid y = false) ∧ assetKey aid x = true := by
  obtain ⟨l1, l2, heq, h1, hp⟩ := find?_decomp h
  refine ⟨l1, l2, heq, h1, ?_, hp⟩
  intro y hy
  have hpair : (x :: l2).Pairwise (fun x y => x.asset_id ≠ y.asset_id) := by
    have := heq ▸ hu
    exact (List.pairwise_append.mp this).2.1
  have hne : x.asset_id ≠ y.asset_id := (List.pairwise_cons.mp hpair).1 y hy
  by_cases hb : assetKey aid y = true
  · exact absurd ((assetKey_eq_true.mp hp).trans (assetKey_eq_true.mp hb).symm) hne
  · simpa using hb

theorem uniqAssets_mapSupply {l : List NftAsset} (aid : Nat) (f : Nat → Nat)
    (hu : uniqAssets l) : uniqAssets (mapSupply l aid f) := by
  unfold mapSupply uniqAssets
  rw [List.pairwise_map]
  refine hu.imp ?_
  intro p q hpq
  have e1 : ∀ z : NftAsset,
      (if assetKey aid z then ({ z with supply := f z.supply } : NftAsset) else z).asset_id =
        z.asset_id := by
    intro z
    by_cases h : assetKey aid z = true
    · rw [if_pos h]
    · rw [if_neg h]
  rw [e1, e1]
  exact hpq

theorem uniqAssets_append_new {l : List NftAsset} {x : NftAsset}
    (hu : uniqAssets l) (hfresh : ∀ y ∈ l, y.asset_id ≠ x.asset_id) :
    uniqAssets (l ++ [x]) := by
  unfold uniqAssets
  rw [List.pairwise_append]
  exact ⟨hu, List.pairwise_singleton _ _, fun y hy z hz => by
    rw [List.mem_singleton] at hz
    subst hz
    exact hfresh y hy⟩

/-- No asset row carries the freshly allocated id. -/
theorem no_asset_at_fresh (st : ChainState) :
    findAsset st (allocId (st.assets.map (fun a => a.asset_id))) = none := by
  unfold findAsset
  rw [List.find?_eq_none]
  intro x hx
  have hlt := fresh_id_gt (st.assets.map (fun a => a.asset_id)) x.asset_id
    (List.mem_map.mpr ⟨x, hx, rfl⟩)
  simp [assetKey]
  omega

/-! ## Per-operation preservation lemmas -/

theorem mod_u64_add (s : Int) (n : Nat) (amount : Int)
    (h : s % (U64 : Int) = (n : Int) % (U64 : Int)) (hpos : 0 < amount) :
    (s + amount) % (U64 : Int) = (((n + amount.toNat) % U64 : Nat) : Int) % (U64 : Int) := by
  have hcast : ((amount.toNat : Nat) : Int) = amount := Int.toNat_of_nonneg (le_of_lt hpos)
  rw [Int.ofNat_emod]
  push_cast
  rw [Int.emod_emod_of_dvd _ dvd_rfl, hcast]
  rw [Int.add_emod, h, ← Int.add_emod]

theorem mod_u64_sub (s : Int) (n : Nat) (amount : Int)
    (h : s % (U64 : Int) = (n : Int) % (U64 : Int)) (hpos : 0 < amount)
    (hle : amount.toNat ≤ n) :
    (s - amount) % (U64 : Int) = (((n - amount.toNat) : Nat) : Int) % (U64 : Int) := by
  have hcast : ((amount.toNat : Nat) : Int) = amount := Int.toNat_of_nonneg (le_of_lt hpos)
  rw [Nat.cast_sub hle, hcast]
  rw [Int.sub_emod, h, ← Int.sub_emod]

theorem mint_preserves {env : Env} {st : ChainState} {dst : Name} {asset_id : Nat}
    {amount : Int} {memo : String} {st' : ChainState} {ev : Event}
    {q : Option (Name × Name × Nat × Int × String)}
    (hu : uniqKeys st.balances) (hua : uniqAssets st.assets) (hinv : SumInv st)
    (h : mint env st dst asset_id amount memo = .ok (st', ev, q)) :
    SumInv st' ∧ uniqKeys st'.balances ∧ uniqAssets st'.assets ∧
      st'.collections = st.collections := by
  obtain ⟨ast, col, hmemo, hast, hcol, hauth, hamt, hcap, hst', hev, hq⟩ := mint_ok_inv h
  have hassets : st'.assets =
      mapSupply st.assets asset_id (fun s => (s + amount.toNat) % U64) := by
    rw [hst']
    exact add_balance_assets _ _ _ _ _
  have hbal : st'.balances = (add_balance { st with
      assets := mapSupply st.assets asset_id (fun s => (s + amount.toNat) % U64) }
      dst asset_id amount col.author).1.balances := by rw [hst']
  have hcols : st'.collections = st.collections := by
    rw [hst']
    exact add_balance_collections _ _ _ _ _
  have hufix : uniqKeys ({ st with
      assets := mapSupply st.assets asset_id (fun s => (s + amount.toNat) % U64) } :
      ChainState).balances := hu
  refine ⟨?_, ?_, ?_, hcols⟩
  · unfold findAsset at hast
    obtain ⟨l1, l2, heql, h1, h2, hkey⟩ := uniqA_decomp hua hast
    have haid : ast.asset_id = asset_id := assetKey_eq_true.mp hkey
    have hmain : mapSupply st.assets asset_id (fun s => (s + amount.toNat) % U64) =
        l1 ++ ({ ast with supply := (ast.supply + amount.toNat) % U64 }) :: l2 := by
      rw [heql, mapSupply_append, mapSupply_eq_self _ h1, mapSupply_cons, if_pos hkey,
        mapSupply_eq_self _ h2]
    intro x hx
    rw [hassets, hmain] at hx
    rcases List.mem_append.mp hx with hin | hin
    · have hxa : assetKey asset_id x = false := h1 x hin
      have hxne : asset_id ≠ x.asset_id := fun hc => by simp [assetKey, ← hc] at hxa
      have hmem : x ∈ st.assets := by rw [heql]; exact List.mem_append_left _ hin
      have hs1 : sumBal st'.balances x.asset_id = sumBal st.balances x.asset_id := by
        rw [hbal]
        exact add_balance_sum_other _ _ _ _ hxne
      rw [hs1]
      exact hinv x hmem
    · rcases List.mem_cons.mp hin with hx' | hin2
      · subst hx'
        have hs1 : sumBal st'.balances asset_id = sumBal st.balances asset_id + amount := by
          rw [hbal]
          exact add_balance_sum_self _ _ _ _ hufix
        show sumBal st'.balances ast.asset_id % (U64 : Int) =
          (((ast.supply + amount.toNat) % U64 : Nat) : Int) % (U64 : Int)
        rw [haid, hs1]
        have hsum := hinv ast (by
          rw [heql]; exact List.mem_append_right _ (List.mem_cons_self _ _))
        rw [haid] at hsum
        exact mod_u64_add _ _ _ hsum hamt
      · have hxa : assetKey asset_id x = false := h2 x hin2
        have hxne : asset_id ≠ x.asset_id := fun hc => by simp [assetKey, ← hc] at hxa
        have hmem : x ∈ st.assets := by
          rw [heql]; exact List.mem_append_right _ (List.mem_cons_of_mem _ hin2)
        have hs1 : sumBal st'.balances x.asset_id = sumBal st.balances x.asset_id := by
          rw [hbal]
          exact add_balance_sum_other _ _ _ _ hxne
        rw [hs1]
        exact hinv x hmem
  · rw [hbal]
    exact add_balance_uniq _ _ _ _ hufix
  · rw [hassets]
    exact uniqAssets_mapSupply _ _ hua

theorem transfer_preserves {env : Env} {st : ChainState} {frm dst : Name} {asset_id : Nat}
    {amount : Int} {memo : String} {st' : ChainState} {ev : Event}
    (hu : uniqKeys st.balances) (hua : uniqAssets st.assets) (hinv : SumInv st)
    (h : transfer env st frm dst asset_id amount memo = .ok (st', ev)) :
    SumInv st' ∧ uniqKeys st'.balances ∧ uniqAssets st'.assets ∧
      st'.collections = st.collections ∧ st'.assets = st.assets := by
  obtain ⟨stm, ret, hne, hauth, hacct, hsome, hamt, hmemo, hsub, hst', hev⟩ :=
    transfer_ok_inv h
  have hmu : uniqKeys stm.balances := sub_balance_uniq hu hsub
  have hmassets : stm.assets = st.assets := sub_balance_assets hsub
  have hassets : st'.assets = st.assets := by
    rw [hst', add_balance_assets, hmassets]
  have hcols : st'.collections = st.collections := by
    rw [hst', add_balance_collections, sub_balance_collections hsub]
  refine ⟨?_, ?_, hassets ▸ hua, hcols, hassets⟩
  · intro x hx
    rw [hassets] at hx
    by_cases hxa : x.asset_id = asset_id
    · have hs1 : sumBal st'.balances x.asset_id =
          sumBal stm.balances x.asset_id + amount := by
        rw [hst', hxa]
        exact add_balance_sum_self _ _ _ _ hmu
      have hs2 : sumBal stm.balances x.asset_id = sumBal st.balances x.asset_id - amount := by
        rw [hxa]
        exact sub_balance_sum_self hu hsub
      rw [hs1, hs2]
      have := hinv x hx
      calc (sumBal st.balances x.asset_id - amount + amount) % (U64 : Int)
          = sumBal st.balances x.asset_id % (U64 : Int) := by ring_nf
        _ = (x.supply : Int) % (U64 : Int) := this
    · have hs1 : sumBal st'.balances x.asset_id = sumBal stm.balances x.asset_id := by
        rw [hst']
        exact add_balance_sum_other _ _ _ _ (Ne.symm hxa)
      have hs2 : sumBal stm.balances x.asset_id = sumBal st.balances x.asset_id :=
        sub_balance_sum_other hsub (Ne.symm hxa)
      rw [hs1, hs2]
      exact hinv x hx
  · rw [hst']
    exact add_balance_uniq _ _ _ _ hmu

theorem burn_preserves {env : Env} {st : ChainState} {asset_id : Nat} {amount : Int}
    {memo : String} {st' : ChainState} {ev : Event}
    (hu : uniqKeys st.balances) (hua : uniqAssets st.assets) (hinv : SumInv st)
    (h : burn env st asset_id amount memo = .ok (st', ev)) :
    SumInv st' ∧ uniqKeys st'.balances ∧ uniqAssets st'.assets ∧
      st'.collections = st.collections := by
  obtain ⟨ast, col, stm, ret, hmemo, hamt, hast, hsup, hcol, hauth, hsub, hst', hev⟩ :=
    burn_ok_inv h
  have hufix : uniqKeys ({ st with
      assets := mapSupply st.assets asset_id (fun s => s - amount.toNat) } :
      ChainState).balances := hu
  have hmassets : stm.assets =
      mapSupply st.assets asset_id (fun s => s - amount.toNat) := sub_balance_assets hsub
  have hassets : st'.assets = mapSupply st.assets asset_id (fun s => s - amount.toNat) := by
    rw [hst', hmassets]
  have hcols : st'.collections = st.collections := by
    rw [hst', sub_balance_collections hsub]
  refine ⟨?_, ?_, ?_, hcols⟩
  · unfold findAsset at hast
    obtain ⟨l1, l2, heql, h1, h2, hkey⟩ := uniqA_decomp hua hast
    have haid : ast.asset_id = asset_id := assetKey_eq_true.mp hkey
    have hmain : mapSupply st.assets asset_id (fun s => s - amount.toNat) =
        l1 ++ ({ ast with supply := ast.supply - amount.toNat }) :: l2 := by
      rw [heql, mapSupply_append, mapSupply_eq_self _ h1, mapSupply_cons, if_pos hkey,
        mapSupply_eq_self _ h2]
    intro x hx
    rw [hassets, hmain] at hx
    rcases List.mem_append.mp hx with hin | hin
    · have hxa : assetKey asset_id x = false := h1 x hin
      have hxne : asset_id ≠ x.asset_id := fun hc => by simp [assetKey, ← hc] at hxa
      have hmem : x ∈ st.assets := by rw [heql]; exact List.mem_append_left _ hin
      have hs0 := sub_balance_sum_other hsub hxne
      have hs1 : sumBal st'.balances x.asset_id = sumBal st.balances x.asset_id := by
        rw [hst']
        exact hs0
      rw [hs1]
      exact hinv x hmem
    · rcases List.mem_cons.mp hin with hx' | hin2
      · subst hx'
        have hs0 := sub_balance_sum_self hufix hsub
        have hs1 : sumBal st'.balances asset_id = sumBal st.balances asset_id - amount := by
          rw [hst']
          exact hs0
        show sumBal st'.balances ast.asset_id % (U64 : Int) =
          (((ast.supply - amount.toNat) : Nat) : Int) % (U64 : Int)
        rw [haid, hs1]
        have hsum := hinv ast (by
          rw [heql]; exact List.mem_append_right _ (List.mem_cons_self _ _))
        rw [haid] at hsum
        exact mod_u64_sub _ _ _ hsum hamt hsup
      · have hxa : assetKey asset_id x = false := h2 x hin2
        have hxne : asset_id ≠ x.asset_id := fun hc => by simp [assetKey, ← hc] at hxa
        have hmem : x ∈ st.assets := by
          rw [heql]; exact List.mem_append_right _ (List.mem_cons_of_mem _ hin2)
        have hs0 := sub_balance_sum_other hsub hxne
        have hs1 : sumBal st'.balances x.asset_id = sumBal st.balances x.asset_id := by
          rw [hst']
          exact hs0
        rw [hs1]
        exact hinv x hmem
  · rw [hst']
    exact sub_balance_uniq hufix hsub
  · rw [hassets]
    exact uniqAssets_mapSupply _ _ hua

theorem mintTx_preserves {env : Env} {st : ChainState} {dst : Name} {asset_id : Nat}
    {amount : Int} {memo : String} {st' : ChainState} {evs : List Event}
    (hu : uniqKeys st.balances) (hua : uniqAssets st.assets) (hinv : SumInv st)
    (h : mintTx env st dst asset_id amount memo = .ok (st', evs)) :
    SumInv st' ∧ uniqKeys st'.balances ∧ uniqAssets st'.assets ∧
      st'.collections = st.collections := by
  obtain ⟨st1, ev, q, hmint, hcase⟩ := mintTx_ok_inv h
  obtain ⟨hinv1, hu1, hua1, hc1⟩ := mint_preserves hu hua hinv hmint
  rcases hcase with ⟨hq, hst, hevs⟩ | ⟨f, t, aid, amt, m, st2, ev2, hq, htr, hst, hevs⟩
  · subst hst
    exact ⟨hinv1, hu1, hua1, hc1⟩
  · subst hst
    obtain ⟨hinv2, hu2, hua2, hc2, ha2⟩ := transfer_preserves hu1 hua1 hinv1 htr
    exact ⟨hinv2, hu2, hua2, hc2.trans hc1⟩

theorem createcol_state {env : Env} {st : ChainState} {author : Name} {roy : Nat}
    {data : String} {st' : ChainState} {ev : Event}
    (h : createcol env st author roy data = .ok (st', ev)) :
    st'.assets = st.assets ∧ st'.balances = st.balances := by
  obtain ⟨h1, h2, h3, h4, hst, hev⟩ := createcol_ok_inv h
  rw [hst]
  exact ⟨rfl, rfl⟩

theorem createasset_preserves {env : Env} {st : ChainState} {cid sup maxs : Nat}
    {data : String} {st' : ChainState} {evs : List Event}
    (hu : uniqKeys st.balances) (hua : uniqAssets st.assets) (hrefs : balRefs st)
    (hinv : SumInv st) (h : createasset env st cid sup maxs data = .ok (st', evs)) :
    SumInv st' ∧ uniqKeys st'.balances ∧ uniqAssets st'.assets ∧
      st'.collections = st.collections := by
  obtain ⟨col, hmax, hdata, hcol, hauth, hcase⟩ := createasset_ok_inv h
  have hfresh : ∀ y ∈ st.assets, y.asset_id ≠ allocId (st.assets.map (fun a => a.asset_id)) := by
    intro y hy
    have := fresh_id_gt (st.assets.map (fun a => a.asset_id)) y.asset_id
      (List.mem_map.mpr ⟨y, hy, rfl⟩)
    omega
  have hnofind := no_asset_at_fresh st
  have hsum0 : sumBal st.balances (allocId (st.assets.map (fun a => a.asset_id))) = 0 := by
    apply sumBal_eq_zero
    intro p hp
    intro hc
    have hsome := hrefs p hp
    rw [hc, hnofind] at hsome
    cases hsome
  have hinv1 : SumInv { st with assets := st.assets ++
      [⟨allocId (st.assets.map (fun a => a.asset_id)), cid, 0, maxs, data⟩] } := by
    intro x hx
    rcases List.mem_append.mp hx with hin | hin
    · exact hinv x hin
    · rw [List.mem_singleton] at hin
      subst hin
      show sumBal st.balances (allocId (st.assets.map (fun a => a.asset_id))) % (U64 : Int) =
        ((0 : Nat) : Int) % (U64 : Int)
      rw [hsum0]
      simp
  have hua1 : uniqAssets (st.assets ++
      [⟨allocId (st.assets.map (fun a => a.asset_id)), cid, 0, maxs, data⟩]) :=
    uniqAssets_append_new hua hfresh
  rcases hcase with ⟨hsup, hst, hevs⟩ | ⟨hsup, st2, evs2, hmint, hst, hevs⟩
  · subst hst
    exact ⟨hinv1, hu, hua1, rfl⟩
  · subst hst
    have hufix : uniqKeys ({ st with assets := st.assets ++
        [⟨allocId (st.assets.map (fun a => a.asset_id)), cid, 0, maxs, data⟩] } :
        ChainState).balances := hu
    obtain ⟨hinv2, hu2, hua2, hc2⟩ := mintTx_preserves hufix hua1 hinv1 hmint
    exact ⟨hinv2, hu2, hua2, hc2⟩

theorem mint_uniq {env : Env} {st : ChainState} {dst : Name} {asset_id : Nat}
    {amount : Int} {memo : String} {st' : ChainState} {ev : Event}
    {q : Option (Name × Name × Nat × Int × String)}
    (hu : uniqKeys st.balances)
    (h : mint env st dst asset_id amount memo = .ok (st', ev, q)) :
    uniqKeys st'.balances := by
  obtain ⟨ast, col, hmemo, hast, hcol, hauth, hamt, hcap, hst', hev, hq⟩ := mint_ok_inv h
  rw [hst']
  exact add_balance_uniq _ _ _ _ hu

theorem mint_allPos {env : Env} {st : ChainState} {dst : Name} {asset_id : Nat}
    {amount : Int} {memo : String} {st' : ChainState} {ev : Event}
    {q : Option (Name × Name × Nat × Int × String)}
    (hpos : allPos st.balances)
    (h : mint env st dst asset_id amount memo = .ok (st', ev, q)) :
    allPos st'.balances := by
  obtain ⟨ast, col, hmemo, hast, hcol, hauth, hamt, hcap, hst', hev, hq⟩ := mint_ok_inv h
  rw [hst']
  exact add_balance_allPos _ _ _ hpos hamt

theorem transfer_uniq {env : Env} {st : ChainState} {frm dst : Name} {asset_id : Nat}
    {amount : Int} {memo : String} {st' : ChainState} {ev : Event}
    (hu : uniqKeys st.balances)
    (h : transfer env st frm dst asset_id amount memo = .ok (st', ev)) :
    uniqKeys st'.balances := by
  obtain ⟨stm, ret, hne, hauth, hacct, hsome, hamt, hmemo, hsub, hst', hev⟩ :=
    transfer_ok_inv h
  rw [hst']
  exact add_balance_uniq _ _ _ _ (sub_balance_uniq hu hsub)

theorem transfer_allPos {env : Env} {st : ChainState} {frm dst : Name} {asset_id : Nat}
    {amount : Int} {memo : String} {st' : ChainState} {ev : Event}
    (hu : uniqKeys st.balances) (hpos : allPos st.balances)
    (h : transfer env st frm dst asset_id amount memo = .ok (st', ev)) :
    allPos st'.balances := by
  obtain ⟨stm, ret, hne, hauth, hacct, hsome, hamt, hmemo, hsub, hst', hev⟩ :=
    transfer_ok_inv h
  rw [hst']
  exact add_balance_allPos _ _ _ (sub_balance_allPos hu hpos hsub) hamt

theorem mintTx_uniq {env : Env} {st : ChainState} {dst : Name} {asset_id : Nat}
    {amount : Int} {memo : String} {st' : ChainState} {evs : List Event}
    (hu : uniqKeys st.balances)
    (h : mintTx env st dst asset_id amount memo = .ok (st', evs)) :
    uniqKeys st'.balances := by
  obtain ⟨st1, ev, q, hmint, hcase⟩ := mintTx_ok_inv h
  have hu1 := mint_uniq hu hmint
  rcases hcase with ⟨hq, hst, hevs⟩ | ⟨f, t, aid, amt, m, st2, ev2, hq, htr, hst, hevs⟩
  · subst hst; exact hu1
  · subst hst; exact transfer_uniq hu1 htr

theorem mintTx_allPos {env : Env} {st : ChainState} {dst : Name} {asset_id : Nat}
    {amount : Int} {memo : String} {st' : ChainState} {evs : List Event}
    (hu : uniqKeys st.balances) (hpos : allPos st.balances)
    (h : mintTx env st dst asset_id amount memo = .ok (st', evs)) :
    allPos st'.balances := by
  obtain ⟨st1, ev, q, hmint, hcase⟩ := mintTx_ok_inv h
  have hu1 := mint_uniq hu hmint
  have hp1 := mint_allPos hpos hmint
  rcases hcase with ⟨hq, hst, hevs⟩ | ⟨f, t, aid, amt, m, st2, ev2, hq, htr, hst, hevs⟩
  · subst hst; exact hp1
  · subst hst; exact transfer_allPos hu1 hp1 htr

theorem burn_uniq {env : Env} {st : ChainState} {asset_id : Nat} {amount : Int}
    {memo : String} {st' : ChainState} {ev : Event}
    (hu : uniqKeys st.balances)
    (h : burn env st asset_id amount memo = .ok (st', ev)) :
    uniqKeys st'.balances := by
  obtain ⟨ast, col, stm, ret, hmemo, hamt, hast, hsup, hcol, hauth, hsub, hst', hev⟩ :=
    burn_ok_inv h
  have hufix : uniqKeys ({ st with
      assets := mapSupply st.assets asset_id (fun s => s - amount.toNat) } :
      ChainState).balances := hu
  rw [hst']
  exact sub_balance_uniq hufix hsub

theorem burn_allPos {env : Env} {st : ChainState} {asset_id : Nat} {amount : Int}
    {memo : String} {st' : ChainState} {ev : Event}
    (hu : uniqKeys st.balances) (hpos : allPos st.balances)
    (h : burn env st asset_id amount memo = .ok (st', ev)) :
    allPos st'.balances := by
  obtain ⟨ast, col, stm, ret, hmemo, hamt, hast, hsup, hcol, hauth, hsub, hst', hev⟩ :=
    burn_ok_inv h
  have hufix : uniqKeys ({ st with
      assets := mapSupply st.assets asset_id (fun s => s - amount.toNat) } :
      ChainState).balances := hu
  have hpfix : allPos ({ st with
      assets := mapSupply st.assets asset_id (fun s => s - amount.toNat) } :
      ChainState).balances := hpos
  rw [hst']
  exact sub_balance_allPos hufix hpfix hsub

theorem createasset_uniq {env : Env} {st : ChainState} {cid sup maxs : Nat}
    {data : String} {st' : ChainState} {evs : List Event}
    (hu : uniqKeys st.balances)
    (h : createasset env st cid sup maxs data = .ok (st', evs)) :
    uniqKeys st'.balances := by
  obtain ⟨col, hmax, hdata, hcol, hauth, hcase⟩ := createasset_ok_inv h
  rcases hcase with ⟨hsup, hst, hevs⟩ | ⟨hsup, st2, evs2, hmint, hst, hevs⟩
  · subst hst; exact hu
  · subst hst
    have hufix : uniqKeys ({ st with assets := st.assets ++
        [⟨allocId (st.assets.map (fun a => a.asset_id)), cid, 0, maxs, data⟩] } :
        ChainState).balances := hu
    exact mintTx_uniq hufix hmint

theorem createasset_allPos {env : Env} {st : ChainState} {cid sup maxs : Nat}
    {data : String} {st' : ChainState} {evs : List Event}
    (hu : uniqKeys st.balances) (hpos : allPos st.balances)
    (h : createasset env st cid sup maxs data = .ok (st', evs)) :
    allPos st'.balances := by
  obtain ⟨col, hmax, hdata, hcol, hauth, hcase⟩ := createasset_ok_inv h
  rcases hcase with ⟨hsup, hst, hevs⟩ | ⟨hsup, st2, evs2, hmint, hst, hevs⟩
  · subst hst; exact hpos
  · subst hst
    have hufix : uniqKeys ({ st with assets := st.assets ++
        [⟨allocId (st.assets.map (fun a => a.asset_id)), cid, 0, maxs, data⟩] } :
        ChainState).balances := hu
    have hpfix : allPos ({ st with assets := st.assets ++
        [⟨allocId (st.assets.map (fun a => a.asset_id)), cid, 0, maxs, data⟩] } :
        ChainState).balances := hpos
    exact mintTx_allPos hufix hpfix hmint

/-! ## Concrete fixtures -/

/-- A permissive host: every name is a registered account; the contract
account is `100`; the collection author alice (`1`) authorized the call. -/
def envStd : Env := ⟨fun _ => true, [1], 100⟩

/-- A host in which only alice (`1`) is a registered account. -/
def envNoBob : Env := ⟨fun n => decide (n = 1), [1], 100⟩

/-- alice (`1`) authors collection 1; asset 1 has supply 10 and cap 100;
alice holds 7 of it and bob (`2`) holds 3. -/
def stIni : ChainState :=
  ⟨[⟨1, 1, 5, "d"⟩], [⟨1, 1, 10, 100, "a"⟩], [(1, ⟨1, 7⟩), (2, ⟨1, 3⟩)]⟩

/-- The boundary state: asset 1 minted up to its cap `2 ^ 64 - 1`; the
holdings (1, 2^63 - 1, 2^63 - 1) sum exactly to the supply. -/
def stCap : ChainState :=
  ⟨[⟨1, 1, 0, "d"⟩], [⟨1, 1, U64 - 1, U64 - 1, "a"⟩],
    [(1, ⟨1, 1⟩), (2, ⟨1, 2 ^ 63 - 1⟩), (3, ⟨1, 2 ^ 63 - 1⟩)]⟩

/-- `stIni` after `mintTx` of 3 to bob: bob was credited twice (once by the
mint body, once by the scheduled transfer) and alice was debited. -/
def stAfterMintBob : ChainState :=
  ⟨[⟨1, 1, 5, "d"⟩], [⟨1, 1, 13, 100, "a"⟩], [(1, ⟨1, 4⟩), (2, ⟨1, 9⟩)]⟩

/-- `stCap` after the wrapping `mintTx` of 5 to alice: the stored supply
wrapped to 4 while the balances sum to `2 ^ 64 + 4`. -/
def stCapAfter : ChainState :=
  ⟨[⟨1, 1, 0, "d"⟩], [⟨1, 1, 4, U64 - 1, "a"⟩],
    [(1, ⟨1, 6⟩), (2, ⟨1, 2 ^ 63 - 1⟩), (3, ⟨1, 2 ^ 63 - 1⟩)]⟩

/-! ## Claim C1 -/

/-- C1, code-bug evidence: a successful `mint(to = bob, asset_id = 1,
amount = 3)` with `to ≠ author` does NOT leave the net state change at
"supply +3, bob +3, nobody else touched".  The scheduled inline `transfer`
action is a real balance movement: bob (who held 3) ends at 9 — credited 3
by the mint body and another 3 by the transfer — and the author alice (who
held 7) ends at 4, debited 3.  The transaction also requires alice's prior
balance to cover the amount, and emits two `transferlog` events. -/
theorem c1_mint_inline_transfer_moves_balances :
    mintTx envStd stIni 2 1 3 "m" =
      .ok (stAfterMintBob,
        [.transferlog 0 1 1 3 0 6 "m", .transferlog 1 2 1 3 4 9 "m"]) ∧
    effBal stIni 2 1 = 3 ∧ effBal stAfterMintBob 2 1 = 9 ∧
    effBal stIni 1 1 = 7 ∧ effBal stAfterMintBob 1 1 = 4 := by
  decide

/-! ## Claim C2 -/

/-- C2, counterexample: from a well-formed reachable state satisfying the
sum-equals-supply invariant (asset 1: supply = max_supply = `2 ^ 64 - 1`,
balances 1 + (2^63 - 1) + (2^63 - 1) summing to it), a `mint` of 5 to the
author succeeds — the `uint64` sum `supply + amount` wraps past the cap
check — and afterwards the balances sum to `2 ^ 64 + 4` while the stored
supply is 4, so the sum no longer equals the supply. -/
theorem c2_sum_neq_supply_after_wrap :
    SumEq stCap ∧ allPos stCap.balances ∧ uniqKeys stCap.balances ∧
    uniqAssets stCap.assets ∧ balRefs stCap ∧
    (∀ a ∈ stCap.assets, a.supply ≤ a.max_supply) ∧
    mintTx envStd stCap 1 1 5 "" = .ok (stCapAfter, [.transferlog 0 1 1 5 0 6 ""]) ∧
    ¬ SumEq stCapAfter := by
  decide

/-- C2, amended: after every operation the per-asset balance sum is congruent
to the asset's supply modulo `2 ^ 64` (the width in which the contract's
supply arithmetic wraps); with exact integer sums the equality fails at the
wrap point, as the counterexample shows. -/
theorem c2_sum_mod_u64_preserved (env : Env) (st : ChainState)
    (hu : uniqKeys st.balances) (hua : uniqAssets st.assets) (hrefs : balRefs st)
    (hinv : SumInv st) :
    (∀ author roy data st' ev,
      createcol env st author roy data = .ok (st', ev) → SumInv st') ∧
    (∀ cid sup maxs data st' evs,
      createasset env st cid sup maxs data = .ok (st', evs) → SumInv st') ∧
    (∀ dst aid amount memo st' evs,
      mintTx env st dst aid amount memo = .ok (st', evs) → SumInv st') ∧
    (∀ aid amount memo st' ev,
      burn env st aid amount memo = .ok (st', ev) → SumInv st') ∧
    (∀ frm dst aid amount memo st' ev,
      transfer env st frm dst aid amount memo = .ok (st', ev) → SumInv st') := by
  refine ⟨?_, ?_, ?_, ?_, ?_⟩
  · intro author roy data st' ev h
    obtain ⟨ha, hb⟩ := createcol_state h
    intro x hx
    rw [ha] at hx
    rw [hb]
    exact hinv x hx
  · intro cid sup maxs data st' evs h
    exact (createasset_preserves hu hua hrefs hinv h).1
  · intro dst aid amount memo st' evs h
    exact (mintTx_preserves hu hua hinv h).1
  · intro aid amount memo st' ev h
    exact (burn_preserves hu hua hinv h).1
  · intro frm dst aid amount memo st' ev h
    exact (transfer_preserves hu hua hinv h).1

/-- C2 witness: the amended preservation theorem applied to a concrete mint
of 5 to alice on `stIni`. -/
theorem c2_sum_mod_u64_preserved_witness :
    SumInv ⟨[⟨1, 1, 5, "d"⟩], [⟨1, 1, 15, 100, "a"⟩], [(1, ⟨1, 12⟩), (2, ⟨1, 3⟩)]⟩ :=
  (c2_sum_mod_u64_preserved envStd stIni (by decide) (by decide) (by decide)
    (by decide)).2.2.1 1 1 5 "m"
    ⟨[⟨1, 1, 5, "d"⟩], [⟨1, 1, 15, 100, "a"⟩], [(1, ⟨1, 12⟩), (2, ⟨1, 3⟩)]⟩
    [.transferlog 0 1 1 5 0 12 "m"] (by decide)

/-! ## Claim C3 -/

/-- C3: every operation preserves "all stored balance quantities are
strictly positive" (in the list model a record exists iff it is stored, so
this is exactly "a Balance record exists only with quantity > 0"), and a
debit of the full stored balance erases the record, leaving no row behind.
`uniqKeys` is the multi_index primary-key uniqueness of the balances
table. -/
theorem c3_balance_records_positive (env : Env) (st : ChainState)
    (hu : uniqKeys st.balances) (hpos : allPos st.balances) :
    (∀ author roy data st' ev,
      createcol env st author roy data = .ok (st', ev) → allPos st'.balances) ∧
    (∀ cid sup maxs data st' evs,
      createasset env st cid sup maxs data = .ok (st', evs) → allPos st'.balances) ∧
    (∀ dst aid amount memo st' evs,
      mintTx env st dst aid amount memo = .ok (st', evs) → allPos st'.balances) ∧
    (∀ aid amount memo st' ev,
      burn env st aid amount memo = .ok (st', ev) → allPos st'.balances) ∧
    (∀ frm dst aid amount memo st' ev,
      transfer env st frm dst aid amount memo = .ok (st', ev) → allPos st'.balances) ∧
    (∀ o a amt p, findBal st.balances o a = some p → p.2.balance = amt →
      sub_balance st o a amt = .ok ({ st with balances := eraseBal st.balances o a }, 0) ∧
      findBal (eraseBal st.balances o a) o a = none) := by
  refine ⟨?_, ?_, ?_, ?_, ?_, ?_⟩
  · intro author roy data st' ev h
    rw [(createcol_state h).2]
    exact hpos
  · intro cid sup maxs data st' evs h
    exact createasset_allPos hu hpos h
  · intro dst aid amount memo st' evs h
    exact mintTx_allPos hu hpos h
  · intro aid amount memo st' ev h
    exact burn_allPos hu hpos h
  · intro frm dst aid amount memo st' ev h
    exact transfer_allPos hu hpos h
  · intro o a amt p hfind heq
    constructor
    · unfold sub_balance
      rw [hfind]
      show (if p.2.balance < amt then
            (Except.error Err.insufficientBalance : Except Err (ChainState × Int))
          else if p.2.balance = amt then
            .ok ({ st with balances := eraseBal st.balances o a }, 0)
          else
            .ok ({ st with balances := mapBal st.balances o a (fun b => b - amt) },
              p.2.balance - amt)) =
        .ok ({ st with balances := eraseBal st.balances o a }, 0)
      rw [if_neg (by rw [heq]; exact lt_irrefl amt), if_pos heq]
    · exact findBal_eraseBal_self _ _ _

/-- C3 witness: positivity after a concrete transfer of 4 from alice to bob
on `stIni`. -/
theorem c3_balance_records_positive_witness :
    allPos (⟨[⟨1, 1, 5, "d"⟩], [⟨1, 1, 10, 100, "a"⟩],
      [(1, ⟨1, 3⟩), (2, ⟨1, 7⟩)]⟩ : ChainState).balances :=
  (c3_balance_records_positive envStd stIni (by decide) (by decide)).2.2.2.2.1
    1 2 1 4 "t"
    ⟨[⟨1, 1, 5, "d"⟩], [⟨1, 1, 10, 100, "a"⟩], [(1, ⟨1, 3⟩), (2, ⟨1, 7⟩)]⟩
    (.transferlog 1 2 1 4 3 7 "t") (by decide)

/-! ## Claim C4 -/

/-- C4, counterexample: minting 3 to bob (`to = 2`) on `stIni` succeeds and
the single `transferlog` the mint body emits carries `to = 1` — the
collection author alice — not the `to` parameter 2, even though its
`to_balance` field (6) is bob's resulting balance. -/
theorem c4_recipient_field_is_author :
    mint envStd stIni 2 1 3 "m" =
      .ok (⟨[⟨1, 1, 5, "d"⟩], [⟨1, 1, 13, 100, "a"⟩],
        [(1, ⟨1, 7⟩), (2, ⟨1, 6⟩)]⟩,
        .transferlog 0 1 1 3 0 6 "m", some (1, 2, 1, 3, "m")) ∧
    (1 : Name) ≠ (2 : Name) := by
  decide

/-- C4, amended: the single `transferlog` emitted by a successful mint
carries `from = name("")` (the null principal), the recipient field equal to
the COLLECTION AUTHOR (which coincides with the `to` parameter only when
minting to the author), the given amount, a from-balance of 0, and the
resulting balance of the `to` parameter after the credit. -/
theorem c4_mint_event_shape {env : Env} {st : ChainState} {dst : Name} {asset_id : Nat}
    {amount : Int} {memo : String} {st' : ChainState} {ev : Event}
    {q : Option (Name × Name × Nat × Int × String)}
    (h : mint env st dst asset_id amount memo = .ok (st', ev, q)) :
    ∃ ast col, findAsset st asset_id = some ast ∧
      findCol st ast.collection_id = some col ∧
      ev = Event.transferlog 0 col.author asset_id amount 0
        (effBal st' dst asset_id) memo := by
  obtain ⟨ast, col, hmemo, hast, hcol, hauth, hamt, hcap, hst', hev, hq⟩ := mint_ok_inv h
  refine ⟨ast, col, hast, hcol, ?_⟩
  rw [hev, hst']
  have hb : (add_balance { st with
      assets := mapSupply st.assets asset_id (fun s => (s + amount.toNat) % U64) }
      dst asset_id amount col.author).2 =
      effBal (add_balance { st with
        assets := mapSupply st.assets asset_id (fun s => (s + amount.toNat) % U64) }
        dst asset_id amount col.author).1 dst asset_id := by
    rw [add_balance_ret, add_balance_effBal_self]
  rw [hb]

/-- C4 witness: the amended event-shape theorem at the concrete mint of 3 to
bob on `stIni`. -/
theorem c4_mint_event_shape_witness :
    ∃ ast col, findAsset stIni 1 = some ast ∧
      findCol stIni ast.collection_id = some col ∧
      Event.transferlog 0 1 1 3 0 6 "m" = Event.transferlog 0 col.author 1 3 0
        (effBal (⟨[⟨1, 1, 5, "d"⟩], [⟨1, 1, 13, 100, "a"⟩],
          [(1, ⟨1, 7⟩), (2, ⟨1, 6⟩)]⟩ : ChainState) 2 1) "m" :=
  @c4_mint_event_shape envStd stIni 2 1 3 "m"
    ⟨[⟨1, 1, 5, "d"⟩], [⟨1, 1, 13, 100, "a"⟩], [(1, ⟨1, 7⟩), (2, ⟨1, 6⟩)]⟩
    (.transferlog 0 1 1 3 0 6 "m") (some (1, 2, 1, 3, "m")) (by decide)

/-! ## Claim C5 -/

/-- C5, counterexample: on `stCap` (supply = max_supply = `2 ^ 64 - 1`) a
mint of 1 by the authorized author with a valid memo SUCCEEDS even though
`supply + amount ≤ max_supply` fails under exact integer arithmetic: the
`uint64` sum `supply + amount` wraps to 0 and the check `max_supply >=
supply + amount` passes. -/
theorem c5_wrap_passes_cap_check :
    findAsset stCap 1 = some ⟨1, 1, U64 - 1, U64 - 1, "a"⟩ ∧
    findCol stCap 1 = some ⟨1, 1, 0, "d"⟩ ∧
    (1 : Name) ∈ envStd.auths ∧
    mint envStd stCap 1 1 1 "" =
      .ok (⟨[⟨1, 1, 0, "d"⟩], [⟨1, 1, 0, U64 - 1, "a"⟩],
        [(1, ⟨1, 2⟩), (2, ⟨1, 2 ^ 63 - 1⟩), (3, ⟨1, 2 ^ 63 - 1⟩)]⟩,
        .transferlog 0 1 1 1 0 2 "", none) ∧
    ¬ ((U64 - 1) + (1 : Int).toNat ≤ U64 - 1) := by
  decide

theorem mint_supply_exceeded {env : Env} {st : ChainState} {dst : Name}
    {asset_id : Nat} {amount : Int} {memo : String} {ast : NftAsset}
    {col : NftCollection} (hast : findAsset st asset_id = some ast)
    (hcol : findCol st ast.collection_id = some col)
    (hauth : col.author ∈ env.auths) (hamt : 0 < amount) (hmemo : memo.length ≤ 256)
    (hcap : ¬ (ast.supply + amount.toNat) % U64 ≤ ast.max_supply) :
    mint env st dst asset_id amount memo = .error .supplyExceeded := by
  unfold mint
  rw [if_neg (not_not_intro hmemo)]
  split
  next h0 => rw [hast] at h0; cases h0
  next ast2 h0 =>
    rw [hast] at h0
    obtain rfl : ast = ast2 := Option.some.inj h0
    split
    next h1 => rw [hcol] at h1; cases h1
    next col2 h1 =>
      rw [hcol] at h1
      obtain rfl : col = col2 := Option.some.inj h1
      rw [if_neg (not_not_intro hauth), if_neg (not_not_intro hamt), if_pos hcap]

theorem mint_eq_ok {env : Env} {st : ChainState} {dst : Name}
    {asset_id : Nat} {amount : Int} {memo : String} {ast : NftAsset}
    {col : NftCollection} (hast : findAsset st asset_id = some ast)
    (hcol : findCol st ast.collection_id = some col)
    (hauth : col.author ∈ env.auths) (hamt : 0 < amount) (hmemo : memo.length ≤ 256)
    (hcap : (ast.supply + amount.toNat) % U64 ≤ ast.max_supply) :
    mint env st dst asset_id amount memo = .ok
      ((add_balance ⟨st.collections,
          mapSupply st.assets asset_id (fun s => (s + amount.toNat) % U64),
          st.balances⟩ dst asset_id amount col.author).1,
        Event.transferlog 0 col.author asset_id amount 0
          (add_balance ⟨st.collections,
            mapSupply st.assets asset_id (fun s => (s + amount.toNat) % U64),
            st.balances⟩ dst asset_id amount col.author).2 memo,
        if dst ≠ col.author then some (col.author, dst, asset_id, amount, memo)
        else none) := by
  unfold mint
  rw [if_neg (not_not_intro hmemo)]
  split
  next h0 => rw [hast] at h0; cases h0
  next ast2 h0 =>
    rw [hast] at h0
    obtain rfl : ast = ast2 := Option.some.inj h0
    split
    next h1 => rw [hcol] at h1; cases h1
    next col2 h1 =>
      rw [hcol] at h1
      obtain rfl : col = col2 := Option.some.inj h1
      rw [if_neg (not_not_intro hauth), if_neg (not_not_intro hamt),
        if_neg (not_not_intro hcap)]

theorem mint_succeeds {env : Env} {st : ChainState} {dst : Name}
    {asset_id : Nat} {amount : Int} {memo : String} {ast : NftAsset}
    {col : NftCollection} (hast : findAsset st asset_id = some ast)
    (hcol : findCol st ast.collection_id = some col)
    (hauth : col.author ∈ env.auths) (hamt : 0 < amount) (hmemo : memo.length ≤ 256)
    (hcap : (ast.supply + amount.toNat) % U64 ≤ ast.max_supply) :
    ∃ r, mint env st dst asset_id amount memo = .ok r :=
  ⟨_, mint_eq_ok hast hcol hauth hamt hmemo hcap⟩

/-- C5, amended: for a mint on an existing asset with authorized caller,
positive amount and valid memo, the mint action succeeds iff
`(supply + amount) mod 2 ^ 64 ≤ max_supply` — the check is computed in
wrapping `uint64` arithmetic, not exact arithmetic — failing with
`SupplyExceeded` otherwise; the invariant `0 ≤ supply ≤ max_supply` is
nevertheless preserved, because the stored supply is exactly the wrapped
value the check bounded by `max_supply`. -/
theorem c5_supply_check_mod_u64 (env : Env) (st : ChainState) (dst : Name)
    (asset_id : Nat) (amount : Int) (memo : String) (ast : NftAsset)
    (col : NftCollection) (hast : findAsset st asset_id = some ast)
    (hcol : findCol st ast.collection_id = some col)
    (hauth : col.author ∈ env.auths) (hamt : 0 < amount) (hmemo : memo.length ≤ 256) :
    ((∃ r, mint env st dst asset_id amount memo = .ok r) ↔
      (ast.supply + amount.toNat) % U64 ≤ ast.max_supply) ∧
    (¬ (ast.supply + amount.toNat) % U64 ≤ ast.max_supply →
      mint env st dst asset_id amount memo = .error .supplyExceeded) ∧
    (uniqAssets st.assets → (∀ a ∈ st.assets, a.supply ≤ a.max_supply) →
      ∀ st' ev q, mint env st dst asset_id amount memo = .ok (st', ev, q) →
        ∀ a ∈ st'.assets, a.supply ≤ a.max_supply) := by
  refine ⟨⟨?_, ?_⟩, ?_, ?_⟩
  · rintro ⟨⟨st', ev, q⟩, h⟩
    obtain ⟨ast2, col2, hmemo2, hast2, hcol2, hauth2, hamt2, hcap2, _, _, _⟩ :=
      mint_ok_inv h
    have : ast2 = ast := Option.some.inj (hast2.symm.trans hast)
    subst this
    exact hcap2
  · intro hcap
    exact mint_succeeds hast hcol hauth hamt hmemo hcap
  · intro hcap
    exact mint_supply_exceeded hast hcol hauth hamt hmemo hcap
  · intro hua hrange st' ev q h
    obtain ⟨ast2, col2, hmemo2, hast2, hcol2, hauth2, hamt2, hcap2, hst', hev, hq⟩ :=
      mint_ok_inv h
    have heq : ast2 = ast := Option.some.inj (hast2.symm.trans hast)
    subst heq
    have hassets : st'.assets =
        mapSupply st.assets asset_id (fun s => (s + amount.toNat) % U64) := by
      rw [hst']
      exact add_balance_assets _ _ _ _ _
    unfold findAsset at hast2
    obtain ⟨l1, l2, heql, h1, h2, hkey⟩ := uniqA_decomp hua hast2
    have hmain : mapSupply st.assets asset_id (fun s => (s + amount.toNat) % U64) =
        l1 ++ ({ ast2 with supply := (ast2.supply + amount.toNat) % U64 }) :: l2 := by
      rw [heql, mapSupply_append, mapSupply_eq_self _ h1, mapSupply_cons, if_pos hkey,
        mapSupply_eq_self _ h2]
    intro x hx
    rw [hassets, hmain] at hx
    rcases List.mem_append.mp hx with hin | hin
    · exact hrange x (by rw [heql]; exact List.mem_append_left _ hin)
    · rcases List.mem_cons.mp hin with hx' | hin2
      · subst hx'
        exact hcap2
      · exact hrange x (by
          rw [heql]; exact List.mem_append_right _ (List.mem_cons_of_mem _ hin2))

/-- C5 witness: the amended theorem instantiated on `stIni` (supply 10, cap
100, amount 5): the success-iff-wrapped-cap equivalence at a concrete
input. -/
theorem c5_supply_check_mod_u64_witness :
    (∃ r, mint envStd stIni 1 1 5 "m" = .ok r) ↔
      (10 + (5 : Int).toNat) % U64 ≤ 100 :=
  (c5_supply_check_mod_u64 envStd stIni 1 1 5 "m" ⟨1, 1, 10, 100, "a"⟩ ⟨1, 1, 5, "d"⟩
    (by decide) (by decide) (by decide) (by decide) (by decide)).1

/-! ## Claim C6 -/

/-- C6: when `createasset` is called with a strictly positive initial
`supply` (a `uint64`, hence the `sup < 2 ^ 64` representation hypothesis)
and succeeds, the state change contains both halves of the composed
operation: the freshly allocated asset (absent before) is stored with
`supply` equal to the requested amount, and the collection author's balance
for the new asset is credited by exactly that amount.  Failure of any
sub-step (including the nested mint) makes the whole `createasset` return
`.error` with no state, which is the model of the host's all-or-nothing
transaction semantics — so creation and initial mint either both take
effect or neither does. -/
theorem c6_createasset_initial_mint_atomic {env : Env} {st : ChainState}
    {cid sup maxs : Nat} {data : String} {st' : ChainState} {evs : List Event}
    (hsup : 0 < sup) (hrep : sup < U64)
    (h : createasset env st cid sup maxs data = .ok (st', evs)) :
    ∃ col, findCol st cid = some col ∧
      findAsset st (allocId (st.assets.map (fun a => a.asset_id))) = none ∧
      findAsset st' (allocId (st.assets.map (fun a => a.asset_id))) =
        some ⟨allocId (st.assets.map (fun a => a.asset_id)), cid, sup, maxs, data⟩ ∧
      effBal st' col.author (allocId (st.assets.map (fun a => a.asset_id))) =
        effBal st col.author (allocId (st.assets.map (fun a => a.asset_id))) + (sup : Int) := by
  obtain ⟨col, hmax, hdata, hcol, hauth, hcase⟩ := createasset_ok_inv h
  rcases hcase with ⟨hz, _, _⟩ | ⟨_, st2, evs2, hmint, hst, hevs⟩
  · omega
  · subst hst
    obtain ⟨st1m, ev, q, hact, hcase2⟩ := mintTx_ok_inv hmint
    obtain ⟨ast2, col2, hmemo2, hast2, hcol2, hauth2, hamt2, hcap2, hstm, hev, hq⟩ :=
      mint_ok_inv hact
    have hnofind := no_asset_at_fresh st
    have hfind1 : findAsset { st with assets := st.assets ++
        [⟨allocId (st.assets.map (fun a => a.asset_id)), cid, 0, maxs, data⟩] }
        (allocId (st.assets.map (fun a => a.asset_id))) =
        some ⟨allocId (st.assets.map (fun a => a.asset_id)), cid, 0, maxs, data⟩ := by
      unfold findAsset at hnofind ⊢
      rw [show ({ st with assets := st.assets ++
          [⟨allocId (st.assets.map (fun a => a.asset_id)), cid, 0, maxs, data⟩] } :
          ChainState).assets = st.assets ++
          [⟨allocId (st.assets.map (fun a => a.asset_id)), cid, 0, maxs, data⟩] from rfl]
      rw [findA_append_none _ hnofind, if_pos (by simp [assetKey])]
    have hast2v : ast2 = ⟨allocId (st.assets.map (fun a => a.asset_id)), cid, 0, maxs, data⟩ :=
      Option.some.inj (hast2.symm.trans hfind1)
    subst hast2v
    have hs63 : sup < 2 ^ 63 := by
      by_contra hc
      have : toInt64 sup = (sup : Int) - (U64 : Int) := by
        unfold toInt64
        rw [Nat.mod_eq_of_lt hrep, if_neg (by omega)]
      rw [this] at hamt2
      unfold U64 at hamt2 hrep
      omega
    have hamtv : toInt64 sup = (sup : Int) := by
      unfold toInt64
      rw [Nat.mod_eq_of_lt hrep, if_pos hs63]
    have htoNat : (toInt64 sup).toNat = sup := by
      rw [hamtv]
      exact Int.toNat_natCast sup
    have hcol2v : col = col2 := by
      have h2 : findCol st cid = some col2 := hcol2
      exact Option.some.inj (hcol.symm.trans h2)
    subst hcol2v
    have hqnone : q = none := by
      rw [hq, if_neg (by simp)]
    subst hqnone
    rcases hcase2 with ⟨_, hsteq, _⟩ | ⟨f, t, aid, amt, m, stx, evx, hqq, _, _, _⟩
    · subst hsteq
      have hsupval : (0 + (toInt64 sup).toNat) % U64 = sup := by
        rw [htoNat, Nat.zero_add, Nat.mod_eq_of_lt hrep]
      refine ⟨col, hcol, hnofind, ?_, ?_⟩
      · rw [hstm]
        unfold findAsset
        rw [show ((add_balance ⟨st.collections, mapSupply (st.assets ++
            [⟨allocId (st.assets.map (fun a => a.asset_id)), cid, 0, maxs, data⟩])
            (allocId (st.assets.map (fun a => a.asset_id)))
            (fun s => (s + (toInt64 sup).toNat) % U64), st.balances⟩
            col.author (allocId (st.assets.map (fun a => a.asset_id)))
            (toInt64 sup) col.author).1).assets = mapSupply (st.assets ++
            [⟨allocId (st.assets.map (fun a => a.asset_id)), cid, 0, maxs, data⟩])
            (allocId (st.assets.map (fun a => a.asset_id)))
            (fun s => (s + (toInt64 sup).toNat) % U64) from add_balance_assets _ _ _ _ _]
        rw [findA_mapSupply_self]
        unfold findAsset at hfind1
        rw [show ({ st with assets := st.assets ++
            [⟨allocId (st.assets.map (fun a => a.asset_id)), cid, 0, maxs, data⟩] } :
            ChainState).assets = st.assets ++
            [⟨allocId (st.assets.map (fun a => a.asset_id)), cid, 0, maxs, data⟩]
            from rfl] at hfind1
        rw [hfind1]
        simp [htoNat, Nat.mod_eq_of_lt hrep]
      · rw [hstm, add_balance_effBal_self, hamtv]
        rfl
    · cases hqq

/-- State with one collection and no assets, for the C6 witness. -/
def stCol : ChainState := ⟨[⟨1, 1, 5, "d"⟩], [], []⟩

/-- `stCol` after `createasset(collection_id 1, supply 5, max_supply 10)`. -/
def stColA : ChainState :=
  ⟨[⟨1, 1, 5, "d"⟩], [⟨1, 1, 5, 10, "x"⟩], [(1, ⟨1, 5⟩)]⟩

/-- C6 witness: the atomicity theorem at the concrete `createasset` with
initial supply 5 on `stCol`. -/
theorem c6_createasset_initial_mint_atomic_witness :
    ∃ col, findCol stCol 1 = some col ∧
      findAsset stCol (allocId (stCol.assets.map (fun a => a.asset_id))) = none ∧
      findAsset stColA (allocId (stCol.assets.map (fun a => a.asset_id))) =
        some ⟨allocId (stCol.assets.map (fun a => a.asset_id)), 1, 5, 10, "x"⟩ ∧
      effBal stColA col.author (allocId (stCol.assets.map (fun a => a.asset_id))) =
        effBal stCol col.author (allocId (stCol.assets.map (fun a => a.asset_id))) +
          ((5 : Nat) : Int) :=
  @c6_createasset_initial_mint_atomic envStd stCol 1 5 10 "x" stColA
    [.assetlog 1 1 10 "x", .transferlog 0 1 1 5 0 5 "create and mint"]
    (by decide) (by decide) (by decide)

/-! ## Claim C7 -/

theorem sub_balance_eq_none {st : ChainState} {o : Name} {a : Nat} {amt : Int}
    (hb : findBal st.balances o a = none) :
    sub_balance st o a amt = .error .insufficientBalance := by
  unfold sub_balance
  rw [hb]

theorem sub_balance_eq_low {st : ChainState} {o : Name} {a : Nat} {amt : Int}
    {p : Name × NftBalance} (hb : findBal st.balances o a = some p)
    (hlt : p.2.balance < amt) :
    sub_balance st o a amt = .error .insufficientBalance := by
  unfold sub_balance
  split
  next h0 => rfl
  next p2 h0 =>
    rw [hb] at h0
    obtain rfl : p = p2 := Option.some.inj h0
    rw [if_pos hlt]

theorem sub_balance_eq_ok {st : ChainState} {o : Name} {a : Nat} {amt : Int}
    {p : Name × NftBalance} (hb : findBal st.balances o a = some p)
    (hge : ¬ p.2.balance < amt) :
    sub_balance st o a amt =
      (if p.2.balance = amt then
        .ok ({ st with balances := eraseBal st.balances o a }, 0)
      else
        .ok ({ st with balances := mapBal st.balances o a (fun b => b - amt) },
          p.2.balance - amt)) := by
  unfold sub_balance
  split
  next h0 => rw [hb] at h0; cases h0
  next p2 h0 =>
    rw [hb] at h0
    obtain rfl : p = p2 := Option.some.inj h0
    rw [if_neg hge]

/-- C7: `transfer(from, to, asset_id, amount, memo)` fails exactly on its
precondition violations, with the claimed kinds, and otherwise succeeds,
debiting `from` and crediting `to` by exactly `amount`.  The disjunction is
exhaustive and its guards are mutually exclusive, following the source's
check order: `from = to` (`SelfTransfer`, regardless of any balances),
missing authorization (`Unauthorized`), unregistered `to`
(`UnknownPrincipal`), missing asset (`AssetNotFound`), non-positive amount
or oversized memo (`InvalidInput`), and `from`'s effective balance below
`amount` (`InsufficientBalance`, covering both "no balance object found" and
"overdrawn balance"). -/
theorem c7_transfer_fails_iff_precondition_violated (env : Env) (st : ChainState)
    (frm dst : Name) (asset_id : Nat) (amount : Int) (memo : String) :
    (frm = dst ∧ transfer env st frm dst asset_id amount memo = .error .selfTransfer) ∨
    (frm ≠ dst ∧ frm ∉ env.auths ∧
      transfer env st frm dst asset_id amount memo = .error .unauthorized) ∨
    (frm ≠ dst ∧ frm ∈ env.auths ∧ env.is_account dst = false ∧
      transfer env st frm dst asset_id amount memo = .error .unknownPrincipal) ∨
    (frm ≠ dst ∧ frm ∈ env.auths ∧ env.is_account dst = true ∧
      findAsset st asset_id = none ∧
      transfer env st frm dst asset_id amount memo = .error .assetNotFound) ∨
    (frm ≠ dst ∧ frm ∈ env.auths ∧ env.is_account dst = true ∧
      (findAsset st asset_id).isSome ∧ (amount ≤ 0 ∨ 256 < memo.length) ∧
      transfer env st frm dst asset_id amount memo = .error .invalidInput) ∨
    (frm ≠ dst ∧ frm ∈ env.auths ∧ env.is_account dst = true ∧
      (findAsset st asset_id).isSome ∧ 0 < amount ∧ memo.length ≤ 256 ∧
      effBal st frm asset_id < amount ∧
      transfer env st frm dst asset_id amount memo = .error .insufficientBalance) ∨
    (frm ≠ dst ∧ frm ∈ env.auths ∧ env.is_account dst = true ∧
      (findAsset st asset_id).isSome ∧ 0 < amount ∧ memo.length ≤ 256 ∧
      amount ≤ effBal st frm asset_id ∧
      ∃ st' ev, transfer env st frm dst asset_id amount memo = .ok (st', ev) ∧
        effBal st' frm asset_id = effBal st frm asset_id - amount ∧
        effBal st' dst asset_id = effBal st dst asset_id + amount) := by
  by_cases h1 : frm = dst
  · exact Or.inl ⟨h1, by unfold transfer; rw [if_pos h1]⟩
  by_cases h2 : frm ∈ env.auths
  case neg =>
    exact Or.inr (Or.inl ⟨h1, h2, by unfold transfer; rw [if_neg h1, if_pos h2]⟩)
  by_cases h3 : env.is_account dst
  case neg =>
    refine Or.inr (Or.inr (Or.inl ⟨h1, h2, by simpa using h3, ?_⟩))
    unfold transfer
    rw [if_neg h1, if_neg (not_not_intro h2), if_pos h3]
  cases h4 : findAsset st asset_id with
  | none =>
    refine Or.inr (Or.inr (Or.inr (Or.inl ⟨h1, h2, h3, rfl, ?_⟩)))
    unfold transfer
    rw [if_neg h1, if_neg (not_not_intro h2), if_neg (not_not_intro h3), h4]
  | some ast =>
    by_cases h5 : 0 < amount
    case neg =>
      refine Or.inr (Or.inr (Or.inr (Or.inr (Or.inl
        ⟨h1, h2, h3, rfl, Or.inl (by omega), ?_⟩))))
      unfold transfer
      rw [if_neg h1, if_neg (not_not_intro h2), if_neg (not_not_intro h3)]
      split
      next h0 => rw [h4] at h0; cases h0
      next ast2 h0 =>
        rw [if_pos h5]
    by_cases h6 : memo.length ≤ 256
    case neg =>
      refine Or.inr (Or.inr (Or.inr (Or.inr (Or.inl
        ⟨h1, h2, h3, rfl, Or.inr (by omega), ?_⟩))))
      unfold transfer
      rw [if_neg h1, if_neg (not_not_intro h2), if_neg (not_not_intro h3)]
      split
      next h0 => rw [h4] at h0; cases h0
      next ast2 h0 =>
        rw [if_neg (not_not_intro h5), if_pos h6]
    cases hb : findBal st.balances frm asset_id with
    | none =>
      refine Or.inr (Or.inr (Or.inr (Or.inr (Or.inr (Or.inl
        ⟨h1, h2, h3, rfl, h5, h6,
          by rw [effBal_eq_zero_of_none hb]; omega, ?_⟩)))))
      unfold transfer
      rw [if_neg h1, if_neg (not_not_intro h2), if_neg (not_not_intro h3)]
      split
      next h0 => rw [h4] at h0; cases h0
      next ast2 h0 =>
        rw [if_neg (not_not_intro h5), if_neg (not_not_intro h6),
          sub_balance_eq_none hb]
    | some p =>
      by_cases h7 : p.2.balance < amount
      · refine Or.inr (Or.inr (Or.inr (Or.inr (Or.inr (Or.inl
          ⟨h1, h2, h3, rfl, h5, h6,
            by rw [effBal_eq_of_find hb]; exact h7, ?_⟩)))))
        unfold transfer
        rw [if_neg h1, if_neg (not_not_intro h2), if_neg (not_not_intro h3)]
        split
        next h0 => rw [h4] at h0; cases h0
        next ast2 h0 =>
          rw [if_neg (not_not_intro h5), if_neg (not_not_intro h6),
            sub_balance_eq_low hb h7]
      · have hsubE : ∃ sr : ChainState × Int,
            sub_balance st frm asset_id amount = .ok sr := by
          rw [sub_balance_eq_ok hb h7]
          by_cases h8 : p.2.balance = amount
          · rw [if_pos h8]; exact ⟨_, rfl⟩
          · rw [if_neg h8]; exact ⟨_, rfl⟩
        obtain ⟨⟨stm, ret⟩, hsub⟩ := hsubE
        have htr : transfer env st frm dst asset_id amount memo = .ok
            ((add_balance stm dst asset_id amount
              (if dst ∈ env.auths then dst else frm)).1,
              .transferlog frm dst asset_id amount ret
                (add_balance stm dst asset_id amount
                  (if dst ∈ env.auths then dst else frm)).2 memo) := by
          unfold transfer
          rw [if_neg h1, if_neg (not_not_intro h2), if_neg (not_not_intro h3)]
          split
          next h0 => rw [h4] at h0; cases h0
          next ast2 h0 =>
            rw [if_neg (not_not_intro h5), if_neg (not_not_intro h6), hsub]
        refine Or.inr (Or.inr (Or.inr (Or.inr (Or.inr (Or.inr
          ⟨h1, h2, h3, rfl, h5, h6,
            by rw [effBal_eq_of_find hb]; omega,
            _, _, htr, ?_, ?_⟩)))))
        · rw [add_balance_effBal_other _ _ _ _ _ (fun hc => h1 hc.1)]
          exact (sub_balance_effBal_self hsub).1
        · rw [add_balance_effBal_self]
          rw [sub_balance_effBal_other hsub (fun hc => h1 hc.1.symm)]

/-! ## Claim C8 -/

theorem allocId_range' (n : Nat) : allocId (List.range' 1 n) = n + 1 := by
  cases n with
  | zero => rfl
  | succ k =>
    unfold allocId available_primary_key
    have hne : (List.range' 1 (k + 1)).isEmpty = false := by
      rw [List.range'_succ]
      rfl
    rw [hne, foldl_max_range']
    simp

/-- The administrative environment for the concrete allocation scenario. -/
def envAdm : Env := ⟨fun _ => true, [100, 1], 100⟩

/-- The empty ledger. -/
def stEmpty : ChainState := ⟨[], [], []⟩

/-- The ledger after one `createcol`. -/
def stC1 : ChainState := ⟨[⟨1, 1, 500, "d"⟩], [], []⟩

/-- The ledger after two `createcol`s. -/
def stC2 : ChainState := ⟨[⟨1, 1, 500, "d"⟩, ⟨2, 1, 500, "d"⟩], [], []⟩

/-- C8: with the stored ids forming the contiguous block `1..n` (as every
reachable table does, since creation appends `max + 1` starting from 1 and
nothing is deleted), a successful `createCollection` allocates `n + 1` —
the smallest unused id that is ≥ 1, never 0, strictly greater than every
existing id — and extends the block to `1..n+1`; `createAsset` allocates in
the asset namespace the same way (witnessed by its `assetlog`); concretely,
from the empty ledger the first `createCollection` returns id 1, the next
returns 2, and the first `createAsset` returns asset id 1. -/
theorem c8_id_allocation :
    (∀ env st author roy data n st' ev,
      st.collections.map (fun c => c.collection_id) = List.range' 1 n →
      createcol env st author roy data = .ok (st', ev) →
      st'.collections.map (fun c => c.collection_id) = List.range' 1 (n + 1) ∧
      ev = .collog (n + 1) author roy data ∧
      n + 1 ≠ 0 ∧
      (∀ i ∈ List.range' 1 n, i < n + 1) ∧
      (∀ m, 1 ≤ m → m ∉ List.range' 1 n → n + 1 ≤ m)) ∧
    (∀ env st cid sup maxs data k st' evs,
      st.assets.map (fun a => a.asset_id) = List.range' 1 k →
      createasset env st cid sup maxs data = .ok (st', evs) →
      (∃ rest, evs = Event.assetlog (k + 1) cid maxs data :: rest) ∧
      k + 1 ≠ 0 ∧
      (∀ i ∈ List.range' 1 k, i < k + 1) ∧
      (∀ m, 1 ≤ m → m ∉ List.range' 1 k → k + 1 ≤ m)) ∧
    (createcol envAdm stEmpty 1 500 "d" = .ok (stC1, .collog 1 1 500 "d") ∧
      createcol envAdm stC1 1 500 "d" = .ok (stC2, .collog 2 1 500 "d") ∧
      createasset envAdm stC1 1 0 10 "x" =
        .ok (⟨stC1.collections, [⟨1, 1, 0, 10, "x"⟩], []⟩, [.assetlog 1 1 10 "x"])) := by
  have hsmall : ∀ n : Nat, ∀ m, 1 ≤ m → m ∉ List.range' 1 n → n + 1 ≤ m := by
    intro n m h1m hnm
    by_contra hc
    exact hnm (List.mem_range'.mpr ⟨m - 1, by omega, by omega⟩)
  have hlt : ∀ n : Nat, ∀ i ∈ List.range' 1 n, i < n + 1 := by
    intro n i hi
    obtain ⟨j, hj, rfl⟩ := List.mem_range'.mp hi
    omega
  refine ⟨?_, ?_, by decide, by decide, by decide⟩
  · intro env st author roy data n st' ev hmap hok
    obtain ⟨h1, h2, h3, h4, hst', hev⟩ := createcol_ok_inv hok
    have hid : allocId (st.collections.map (fun c => c.collection_id)) = n + 1 := by
      rw [hmap, allocId_range']
    subst hst'
    refine ⟨?_, ?_, by omega, hlt n, hsmall n⟩
    · rw [List.map_append, List.map_cons, List.map_nil]
      show (st.collections.map (fun c => c.collection_id)) ++
        [allocId (st.collections.map (fun c => c.collection_id))] = List.range' 1 (n + 1)
      rw [hid, hmap, List.range'_concat]
      congr 1
      simp [Nat.add_comm]
    · rw [hev, hid]
  · intro env st cid sup maxs data k st' evs hmap hok
    obtain ⟨col, hmax, hdata, hcol, hauth, hcase⟩ := createasset_ok_inv hok
    have hid : allocId (st.assets.map (fun a => a.asset_id)) = k + 1 := by
      rw [hmap, allocId_range']
    rcases hcase with ⟨hsup, hst', hevs⟩ | ⟨hsup, st2, evs2, hmint, hst', hevs⟩
    · exact ⟨⟨[], by rw [hevs, hid]⟩, by omega, hlt k, hsmall k⟩
    · exact ⟨⟨evs2, by rw [hevs, hid]⟩, by omega, hlt k, hsmall k⟩

/-- C8 witness: the allocation theorem applied to the second concrete
`createcol` (table holding exactly id 1). -/
theorem c8_id_allocation_witness :
    stC2.collections.map (fun c => c.collection_id) = List.range' 1 (1 + 1) ∧
    Event.collog 2 1 500 "d" = .collog (1 + 1) 1 500 "d" ∧
    1 + 1 ≠ 0 ∧
    (∀ i ∈ List.range' 1 1, i < 1 + 1) ∧
    (∀ m, 1 ≤ m → m ∉ List.range' 1 1 → 1 + 1 ≤ m) :=
  c8_id_allocation.1 envAdm stC1 1 500 "d" 1 stC2 (.collog 2 1 500 "d")
    (by decide) (by decide)

/-! ## Claim C9 -/

theorem transfer_frame {env : Env} {st : ChainState} {frm dst : Name} {aid : Nat}
    {amount : Int} {memo : String} {st' : ChainState} {ev : Event}
    (h : transfer env st frm dst aid amount memo = .ok (st', ev)) :
    st'.collections = st.collections ∧ st'.assets = st.assets := by
  obtain ⟨stm, ret, _, _, _, _, _, _, hsub, hst', _⟩ := transfer_ok_inv h
  constructor
  · rw [hst', add_balance_collections, sub_balance_collections hsub]
  · rw [hst', add_balance_assets, sub_balance_assets hsub]

theorem mint_frame {env : Env} {st : ChainState} {dst : Name} {aid : Nat}
    {amount : Int} {memo : String} {st' : ChainState} {ev : Event}
    {q : Option (Name × Name × Nat × Int × String)}
    (h : mint env st dst aid amount memo = .ok (st', ev, q)) :
    st'.collections = st.collections ∧
    st'.assets = mapSupply st.assets aid (fun s => (s + amount.toNat) % U64) := by
  obtain ⟨ast, col, _, _, _, _, _, _, hst', _, _⟩ := mint_ok_inv h
  constructor
  · rw [hst']
    exact add_balance_collections _ _ _ _ _
  · rw [hst']
    exact add_balance_assets _ _ _ _ _

theorem mintTx_frame {env : Env} {st : ChainState} {dst : Name} {aid : Nat}
    {amount : Int} {memo : String} {st' : ChainState} {evs : List Event}
    (h : mintTx env st dst aid amount memo = .ok (st', evs)) :
    st'.collections = st.collections ∧
    st'.assets = mapSupply st.assets aid (fun s => (s + amount.toNat) % U64) := by
  obtain ⟨st1, ev, q, hmint, hcase⟩ := mintTx_ok_inv h
  obtain ⟨hc1, ha1⟩ := mint_frame hmint
  rcases hcase with ⟨_, hst, _⟩ | ⟨f, t, aid2, amt, m, st2, ev2, hq, htr, hst, _⟩
  · subst hst
    exact ⟨hc1, ha1⟩
  · subst hst
    obtain ⟨hc2, ha2⟩ := transfer_frame htr
    exact ⟨hc2.trans hc1, ha2.trans ha1⟩

/-- C9: collection records, once stored, are returned unchanged by every
operation (`createcol` only appends a new record); asset records are never
deleted; every asset field except `supply` is preserved by every operation,
and the `supply` field is rewritten only by `mint` (to the wrapped sum
`(supply + amount) mod 2 ^ 64`) and by `burn` (to `supply - amount`), only
on the addressed asset. -/
theorem c9_records_immutable (env : Env) (st : ChainState) :
    (∀ author roy data st' ev, createcol env st author roy data = .ok (st', ev) →
      st'.assets = st.assets ∧ st'.balances = st.balances ∧
      (∀ cid c, findCol st cid = some c → findCol st' cid = some c)) ∧
    (∀ cid sup maxs data st' evs, createasset env st cid sup maxs data = .ok (st', evs) →
      st'.collections = st.collections ∧
      (∀ aid a, findAsset st aid = some a → findAsset st' aid = some a)) ∧
    (∀ dst aid amount memo st' evs, mintTx env st dst aid amount memo = .ok (st', evs) →
      st'.collections = st.collections ∧
      (∀ aid' a, findAsset st aid' = some a → aid' ≠ aid → findAsset st' aid' = some a) ∧
      (∀ a, findAsset st aid = some a →
        findAsset st' aid = some { a with supply := (a.supply + amount.toNat) % U64 })) ∧
    (∀ aid amount memo st' ev, burn env st aid amount memo = .ok (st', ev) →
      st'.collections = st.collections ∧
      (∀ aid' a, findAsset st aid' = some a → aid' ≠ aid → findAsset st' aid' = some a) ∧
      (∀ a, findAsset st aid = some a →
        findAsset st' aid = some { a with supply := a.supply - amount.toNat })) ∧
    (∀ frm dst aid amount memo st' ev,
      transfer env st frm dst aid amount memo = .ok (st', ev) →
      st'.collections = st.collections ∧ st'.assets = st.assets) := by
  refine ⟨?_, ?_, ?_, ?_, ?_⟩
  · intro author roy data st' ev h
    obtain ⟨_, _, _, _, hst', _⟩ := createcol_ok_inv h
    subst hst'
    refine ⟨rfl, rfl, ?_⟩
    intro cid c hc
    exact findCol_append_some _ hc
  · intro cid sup maxs data st' evs h
    obtain ⟨col, hmax, hdata, hcol, hauth, hcase⟩ := createasset_ok_inv h
    have hnofind := no_asset_at_fresh st
    rcases hcase with ⟨hsup, hst', hevs⟩ | ⟨hsup, st2, evs2, hmint, hst', hevs⟩
    · subst hst'
      refine ⟨rfl, ?_⟩
      intro aid a ha
      unfold findAsset at ha ⊢
      exact findA_append_some _ ha
    · subst hst'
      obtain ⟨hc1, ha1⟩ := mintTx_frame hmint
      constructor
      · rw [hc1]
      · intro aid a ha
        unfold findAsset at ha hnofind ⊢
        rw [ha1]
        have hne : aid ≠ allocId (st.assets.map (fun a => a.asset_id)) := by
          intro hc
          rw [hc, hnofind] at ha
          cases ha
        rw [show ({ st with assets := st.assets ++
            [⟨allocId (st.assets.map (fun a => a.asset_id)), cid, 0, maxs, data⟩] } :
            ChainState).assets = st.assets ++
            [⟨allocId (st.assets.map (fun a => a.asset_id)), cid, 0, maxs, data⟩]
            from rfl]
        rw [findA_mapSupply_other _ _ hne]
        exact findA_append_some _ ha
  · intro dst aid amount memo st' evs h
    obtain ⟨hc1, ha1⟩ := mintTx_frame h
    refine ⟨hc1, ?_, ?_⟩
    · intro aid' a ha hne
      unfold findAsset at ha ⊢
      rw [ha1, findA_mapSupply_other _ _ hne]
      exact ha
    · intro a ha
      unfold findAsset at ha ⊢
      rw [ha1, findA_mapSupply_self, ha]
      rfl
  · intro aid amount memo st' ev h
    obtain ⟨ast, col, stm, ret, hmemo, hamt, hast, hsup, hcol, hauth, hsub, hst', hev⟩ :=
      burn_ok_inv h
    have ha0 := sub_balance_assets hsub
    have hc0 := sub_balance_collections hsub
    have hassets : st'.assets = mapSupply st.assets aid (fun s => s - amount.toNat) := by
      rw [hst']
      exact ha0
    have hcols : st'.collections = st.collections := by
      rw [hst']
      exact hc0
    refine ⟨hcols, ?_, ?_⟩
    · intro aid' a ha hne
      unfold findAsset at ha ⊢
      rw [hassets, findA_mapSupply_other _ _ hne]
      exact ha
    · intro a ha
      unfold findAsset at ha ⊢
      rw [hassets, findA_mapSupply_self, ha]
      rfl
  · intro frm dst aid amount memo st' ev h
    exact transfer_frame h

/-- C9 witness: the frame statement at the concrete transfer of 4 from
alice to bob on `stIni`: collections and assets are untouched. -/
theorem c9_records_immutable_witness :
    (⟨[⟨1, 1, 5, "d"⟩], [⟨1, 1, 10, 100, "a"⟩],
      [(1, ⟨1, 3⟩), (2, ⟨1, 7⟩)]⟩ : ChainState).collections = stIni.collections ∧
    (⟨[⟨1, 1, 5, "d"⟩], [⟨1, 1, 10, 100, "a"⟩],
      [(1, ⟨1, 3⟩), (2, ⟨1, 7⟩)]⟩ : ChainState).assets = stIni.assets :=
  (c9_records_immutable envStd stIni).2.2.2.2 1 2 1 4 "t"
    ⟨[⟨1, 1, 5, "d"⟩], [⟨1, 1, 10, 100, "a"⟩], [(1, ⟨1, 3⟩), (2, ⟨1, 7⟩)]⟩
    (.transferlog 1 2 1 4 3 7 "t") (by decide)

/-! ## Claim C10 -/

theorem transfer_no_account {env : Env} (st : ChainState) {frm dst : Name}
    (aid : Nat) (amount : Int) (memo : String) (hne : frm ≠ dst)
    (hauth : frm ∈ env.auths) (hacct : env.is_account dst = false) :
    transfer env st frm dst aid amount memo = .error .unknownPrincipal := by
  unfold transfer
  rw [if_neg hne, if_neg (not_not_intro hauth), if_pos (by simp [hacct])]

/-- C10 counterexample: with bob (principal 2) not a registered account, the
mint action body for 3 units of asset 1 to bob succeeds, but the full mint
transaction fails with UnknownPrincipal — the failure is raised by the
inline transfer the mint body scheduled, which does check `is_account(to)`,
so the claim that a mint to an unregistered recipient succeeds is false. -/
theorem c10_mint_tx_fails_unknown_principal :
    envNoBob.is_account 2 = false ∧
    (mint envNoBob stIni 2 1 3 "m").toOption.isSome = true ∧
    mintTx envNoBob stIni 2 1 3 "m" = .error .unknownPrincipal := by
  refine ⟨rfl, rfl, by decide⟩

/-- C10 (amended): the mint action body itself performs no
recipient-existence check: it can never fail with UnknownPrincipal, and
under mint's other preconditions it succeeds and credits `to` by the
amount whatever `is_account to` returns.  But when `to` differs from the
collection author, the successful body schedules an inline transfer
(author → to) whose `is_account(to)` check makes the whole transaction
fail with UnknownPrincipal for an unregistered `to`; so only a mint whose
recipient is the collection author truly skips the existence check. -/
theorem c10_mint_no_recipient_check (env : Env) (st : ChainState) (dst : Name)
    (asset_id : Nat) (amount : Int) (memo : String) :
    (mint env st dst asset_id amount memo ≠ .error .unknownPrincipal) ∧
    (∀ ast col, findAsset st asset_id = some ast →
      findCol st ast.collection_id = some col → col.author ∈ env.auths →
      0 < amount → memo.length ≤ 256 →
      (ast.supply + amount.toNat) % U64 ≤ ast.max_supply →
      ∃ st' ev q, mint env st dst asset_id amount memo = .ok (st', ev, q) ∧
        effBal st' dst asset_id = effBal st dst asset_id + amount) ∧
    (∀ ast col, findAsset st asset_id = some ast →
      findCol st ast.collection_id = some col → col.author ∈ env.auths →
      0 < amount → memo.length ≤ 256 →
      (ast.supply + amount.toNat) % U64 ≤ ast.max_supply →
      dst ≠ col.author → env.is_account dst = false →
      mintTx env st dst asset_id amount memo = .error .unknownPrincipal) := by
  refine ⟨?_, ?_, ?_⟩
  · intro h
    unfold mint at h
    split at h
    · simp at h
    · split at h
      · simp at h
      · split at h
        · simp at h
        · split at h
          · simp at h
          · split at h
            · simp at h
            · split at h
              · simp at h
              · simp at h
  · intro ast col hast hcol hauth hamt hmemo hcap
    refine ⟨_, _, _, mint_eq_ok hast hcol hauth hamt hmemo hcap, ?_⟩
    have h0 := add_balance_effBal_self
      ⟨st.collections, mapSupply st.assets asset_id (fun s => (s + amount.toNat) % U64),
        st.balances⟩ dst asset_id amount col.author
    exact h0
  · intro ast col hast hcol hauth hamt hmemo hcap hne hacct
    have hm := @mint_eq_ok env st dst asset_id amount memo ast col
      hast hcol hauth hamt hmemo hcap
    rw [if_pos hne] at hm
    have htr := @transfer_no_account { env with auths := [col.author] }
      (add_balance ⟨st.collections,
        mapSupply st.assets asset_id (fun s => (s + amount.toNat) % U64),
        st.balances⟩ dst asset_id amount col.author).1
      col.author dst asset_id amount memo (Ne.symm hne) (by simp) hacct
    unfold mintTx
    simp only [hm]
    rw [htr]

/-- C10 witness: at `envNoBob` and `stIni`, minting 3 of asset 1 to bob
succeeds as an action body and credits bob from 3 to 6 even though bob is
not a registered account. -/
theorem c10_mint_no_recipient_check_witness :
    ∃ st' ev q, mint envNoBob stIni 2 1 3 "m" = .ok (st', ev, q) ∧
      effBal st' 2 1 = effBal stIni 2 1 + 3 :=
  (c10_mint_no_recipient_check envNoBob stIni 2 1 3 "m").2.1 ⟨1, 1, 10, 100, "a"⟩
    ⟨1, 1, 5, "d"⟩ (by decide) (by decide) (by decide) (by decide) (by decide) (by decide)
